import Mathlib

/-!
Verification of the ImageViewer repository's tag-derivation and
paginated-media-session engine.

The definitions below are a shallow embedding of the JavaScript source:

* `src/renderer/renderer.js` — keyword tokenizer (`extractKeywords`),
  tag aggregator (`buildDerivedTags`), and the media-session /
  viewer state machine (`startMediaLoadingForLeaf`,
  `fetchNextMediaChunk`, `openMediaViewerAtIndex`, ...).
* `src/src/main/directoryScanner.js` — the page fetcher
  (`listMediaFiles`, `normalizeOffset`, `normalizeLimit`).

Strings are modelled as Lean `String`/`List Char`.  JavaScript regexes
over Unicode property classes are modelled by explicit character-class
functions restricted to the character ranges exercised by the
repository (ASCII, Latin letters, CJK ideographs, the star glyph); the
reserved star glyph U+2B50 and the path separators are outside every
modelled word range, exactly as they are outside `\p{L}\p{N}\p{Script=Han}`.
JavaScript string length is UTF-16 code-unit length (`utf16Len`).
-/

namespace ImageViewer

/-- The reserved star glyph U+2B50 (`STAR_KEYWORD_PATTERN = /^⭐+$/u`). -/
def starChar : Char := '⭐'

/-- Membership in the star character class `[⭐]`. -/
def isStar (c : Char) : Bool := c = starChar

/-- Membership in the tokenizer's word class `[\p{Script=Han}\p{L}\p{N}]`,
restricted to the modelled ranges: ASCII alphanumerics, Latin-1/Extended
letters (minus the two math signs × ÷), and the Han ideograph blocks. -/
def isWordChar (c : Char) : Bool :=
  (c.isAlpha || c.isDigit)
    || (0xC0 ≤ c.toNat && c.toNat ≤ 0x24F && c.toNat ≠ 0xD7 && c.toNat ≠ 0xF7)
    || (0x3400 ≤ c.toNat && c.toNat ≤ 0x4DBF)
    || (0x4E00 ≤ c.toNat && c.toNat ≤ 0x9FFF)

/-- Whitespace as removed by JavaScript `String.prototype.trim`. -/
def isJsWhitespace (c : Char) : Bool :=
  c = ' ' || c = '\t' || c = '\n' || c = '\r'
    || c.toNat = 0xB || c.toNat = 0xC || c.toNat = 0xA0
    || c.toNat = 0x3000 || c.toNat = 0xFEFF

/-- Fuelled scanner for the global match of
`/(?:[⭐]+|[\p{Script=Han}\p{L}\p{N}]+)/gu`: maximal runs of stars, and
maximal runs of word characters; every other character is skipped.  The
two classes are disjoint, so the regex alternation order does not
matter.  The fuel only serves structural recursion; `scanRuns` below
instantiates it with the input length, which always suffices. -/
def scanRunsF : Nat → List Char → List (List Char)
  | _, [] => []
  | 0, _ :: _ => []
  | fuel + 1, c :: rest =>
    if isStar c then
      (c :: rest.takeWhile isStar) :: scanRunsF fuel (rest.dropWhile isStar)
    else if isWordChar c then
      (c :: rest.takeWhile isWordChar) :: scanRunsF fuel (rest.dropWhile isWordChar)
    else
      scanRunsF fuel rest

/-- The token scanner: all regex matches of the tokenizer pattern, in order. -/
def scanRuns (cs : List Char) : List (List Char) :=
  scanRunsF cs.length cs

theorem length_dropWhile_le (p : Char → Bool) (l : List Char) :
    (l.dropWhile p).length ≤ l.length := by
  induction l with
  | nil => simp
  | cons a l ih =>
    rw [List.dropWhile_cons]
    split
    · exact Nat.le_succ_of_le ih
    · exact Nat.le_refl _

theorem scanRunsF_fuel : ∀ (f g : Nat) (cs : List Char), cs.length ≤ f → cs.length ≤ g →
    scanRunsF f cs = scanRunsF g cs := by
  intro f
  induction f with
  | zero =>
    intro g cs hf _
    have : cs = [] := List.length_eq_zero.mp (Nat.le_zero.mp hf)
    subst this
    cases g <;> rfl
  | succ f ih =>
    intro g cs hf hg
    match cs with
    | [] => cases g <;> rfl
    | c :: rest =>
      match g with
      | g + 1 =>
        simp only [List.length_cons, Nat.succ_le_succ_iff] at hf hg
        simp only [scanRunsF]
        have hs := length_dropWhile_le isStar rest
        have hw := length_dropWhile_le isWordChar rest
        rw [ih g (rest.dropWhile isStar) (le_trans hs hf) (le_trans hs hg),
          ih g (rest.dropWhile isWordChar) (le_trans hw hf) (le_trans hw hg),
          ih g rest hf hg]

theorem scanRuns_nil : scanRuns [] = [] := rfl

theorem scanRuns_cons (c : Char) (rest : List Char) :
    scanRuns (c :: rest) =
      if isStar c then
        (c :: rest.takeWhile isStar) :: scanRuns (rest.dropWhile isStar)
      else if isWordChar c then
        (c :: rest.takeWhile isWordChar) :: scanRuns (rest.dropWhile isWordChar)
      else
        scanRuns rest := by
  show scanRunsF (rest.length + 1) (c :: rest) = _
  simp only [scanRunsF]
  rw [scanRunsF_fuel rest.length (rest.dropWhile isStar).length (rest.dropWhile isStar)
      (length_dropWhile_le isStar rest) (Nat.le_refl _),
    scanRunsF_fuel rest.length (rest.dropWhile isWordChar).length (rest.dropWhile isWordChar)
      (length_dropWhile_le isWordChar rest) (Nat.le_refl _)]
  rfl

/-- JavaScript `token.trim()` on a character list. -/
def jsTrim (l : List Char) : List Char :=
  (l.dropWhile isJsWhitespace).rdropWhile isJsWhitespace

/-- A token matching `STAR_KEYWORD_PATTERN = /^⭐+$/u`: nonempty and all stars. -/
def isStarToken (l : List Char) : Bool := !l.isEmpty && l.all isStar

/-- ASCII digit, the `\d` / `[0-9]` class. -/
def isAsciiDigit (c : Char) : Bool := '0' ≤ c && c ≤ '9'

/-- A token matching `/^\d+$/u`: nonempty and purely numeric. -/
def isAllDigits (l : List Char) : Bool := !l.isEmpty && l.all isAsciiDigit

/-- One alternative of `NUMBERED_KEYWORD_PATTERN`: the literal prefix
followed only by digits. -/
def matchesNumberedPat (p : List Char) (l : List Char) : Bool :=
  p.isPrefixOf l && (l.drop p.length).all isAsciiDigit

/-- A token matching `NUMBERED_KEYWORD_PATTERN = /^(?:vol|part|no)[0-9]*$/u`. -/
def isNumberedKeyword (l : List Char) : Bool :=
  matchesNumberedPat ['v', 'o', 'l'] l
    || matchesNumberedPat ['p', 'a', 'r', 't'] l
    || matchesNumberedPat ['n', 'o'] l

/-- JavaScript `.length`: the number of UTF-16 code units. -/
def utf16Len (l : List Char) : Nat :=
  (l.map (fun c => if c.toNat < 0x10000 then 1 else 2)).sum

/-- JavaScript `toLowerCase`, restricted to the modelled ranges (ASCII
letters fold; Han ideographs and the star glyph are unaffected). -/
def jsToLower (c : Char) : Char := c.toLower

/-- The tokenizer's final filter: star tokens always pass; otherwise the
token is dropped when purely numeric, when it matches the numbered-section
pattern, or when its length is not greater than 1. -/
def keepToken (l : List Char) : Bool :=
  if isStarToken l then true
  else if isAllDigits l then false
  else if isNumberedKeyword l then false
  else decide (1 < utf16Len l)

/-- Deduplication with JavaScript `Array.from(new Set(xs))` semantics:
first occurrence kept, insertion order preserved. -/
def dedupFirst (l : List String) : List String :=
  l.foldl (fun acc x => if x ∈ acc then acc else acc ++ [x]) []

/-- Embedding of `extractKeywords` (renderer.js lines 857–888): scan the
name for star runs and word runs, trim, drop empty tokens, case-fold
non-star tokens, apply the suppression filter, and deduplicate. -/
def extractKeywords (name : String) : List String :=
  if name = "" then []
  else
    let ms := scanRuns name.data
    let trimmed := (ms.map jsTrim).filter (fun t => !t.isEmpty)
    let normalized := trimmed.map (fun t => if isStarToken t then t else t.map jsToLower)
    let kept := normalized.filter keepToken
    dedupFirst (kept.map (fun t => String.mk t))

example : extractKeywords "⭐⭐ Trip" = ["⭐⭐", "trip"] := by decide

example : extractKeywords "Vol2 Summer 2023" = ["summer"] := by decide

example : extractKeywords "" = [] := by decide

/-! ## Tag aggregator (`buildDerivedTags`, renderer.js lines 900–939) -/

/-- The promotion threshold (renderer.js line 29). -/
def MIN_TAG_OCCURRENCE : Nat := 2

/-- An element of the `leaves` argument as seen by `buildDerivedTags`:
either a nullish value (`null`/`undefined`) or an object whose `path`
and `displayPath` properties may each be absent (or of the wrong type,
which `getLeafName` treats the same as absent). -/
inductive JsLeaf where
  | nullish
  | obj (path : Option String) (displayPath : Option String)
deriving DecidableEq

/-- Path separator characters, the class `[\\/]`. -/
def isPathSep (c : Char) : Bool := c = '/' || c = '\\'

/-- Fuelled splitter for `displayPath.split(/[\\/]+/).filter(Boolean)`:
the maximal runs of non-separator characters. -/
def pathSegmentsF : Nat → List Char → List (List Char)
  | _, [] => []
  | 0, _ :: _ => []
  | fuel + 1, c :: rest =>
    if isPathSep c then pathSegmentsF fuel rest
    else
      (c :: rest.takeWhile (fun d => !isPathSep d)) ::
        pathSegmentsF fuel (rest.dropWhile (fun d => !isPathSep d))

/-- The nonempty segments of a display path. -/
def pathSegments (cs : List Char) : List (List Char) :=
  pathSegmentsF cs.length cs

/-- Embedding of `getLeafName` (renderer.js lines 900–906): the last
nonempty path segment of `displayPath`, the whole `displayPath` when it
has no nonempty segment, and `""` for a nullish leaf or a missing
`displayPath`. -/
def getLeafName (leaf : JsLeaf) : String :=
  match leaf with
  | .nullish => ""
  | .obj _ displayPath =>
    match displayPath with
    | none => ""
    | some dp =>
      match (pathSegments dp.data).getLast? with
      | some seg => String.mk seg
      | none => dp

/-- A derived tag: keyword id, display label, and distinct-directory count. -/
structure Tag where
  id : String
  label : String
  count : Nat
deriving DecidableEq

/-- Is the character a letter for `\p{L}` in `humanizeKeyword`'s
replacement (restricted to the modelled ranges)? -/
def isLetterChar (c : Char) : Bool :=
  c.isAlpha
    || (0xC0 ≤ c.toNat && c.toNat ≤ 0x24F && c.toNat ≠ 0xD7 && c.toNat ≠ 0xF7)
    || (0x3400 ≤ c.toNat && c.toNat ≤ 0x4DBF)
    || (0x4E00 ≤ c.toNat && c.toNat ≤ 0x9FFF)

/-- Is the character in the Han script (restricted to the modelled blocks)? -/
def isHanChar (c : Char) : Bool :=
  (0x3400 ≤ c.toNat && c.toNat ≤ 0x4DBF) || (0x4E00 ≤ c.toNat && c.toNat ≤ 0x9FFF)

/-- Is the character a word boundary for `humanizeKeyword`'s
replacement group `(^|\s|[-_])`?  (`^` is handled by the caller.) -/
def isBoundaryChar (c : Char) : Bool :=
  isJsWhitespace c || c = '-' || c = '_'

/-- Scanner equivalent of the global replacement
`replace(/(^|\s|[-_])(\p{L})/gu, upcase-the-letter)`: a letter is
uppercased exactly when it is at the start or right after a boundary
character. -/
def upcaseAfterBoundary : Bool → List Char → List Char
  | _, [] => []
  | atBoundary, c :: rest =>
    (if atBoundary && isLetterChar c then c.toUpper else c) ::
      upcaseAfterBoundary (isBoundaryChar c) rest

/-- Embedding of `humanizeKeyword` (renderer.js lines 890–898). -/
def humanizeKeyword (keyword : String) : String :=
  if isStarToken keyword.data then keyword
  else if !keyword.data.isEmpty && keyword.data.all isHanChar then keyword
  else String.mk (upcaseAfterBoundary true keyword.data)

/-- One step of the bucket map update: increment the keyword's bucket,
creating it with the humanized label when absent. -/
def bumpBucket (bs : List Tag) (k : String) : List Tag :=
  if bs.any (fun t => t.id = k) then
    bs.map (fun t => if t.id = k then { t with count := t.count + 1 } else t)
  else
    bs ++ [{ id := k, label := humanizeKeyword k, count := 1 }]

/-- JavaScript object-property assignment `keywordIndex[key] = keywords`
on an insertion-ordered association list. -/
def setKeywordIndex (ix : List (String × List String)) (key : String)
    (v : List String) : List (String × List String) :=
  if ix.any (fun p => p.1 = key) then
    ix.map (fun p => if p.1 = key then (p.1, v) else p)
  else
    ix ++ [(key, v)]

/-- The error raised by `keywordIndex[leaf.path]` when `leaf` is nullish. -/
def nullishLeafError : String := "TypeError: Cannot read properties of null"

/-- The keyword set a leaf contributes: the tokenizer applied to the
leaf's name. -/
def leafKeywords (leaf : JsLeaf) : List String :=
  extractKeywords (getLeafName leaf)

/-- The inner keyword loop of `buildDerivedTags`: bump the bucket of
every non-excluded keyword. -/
def bumpAll (excluded : List String) (bs : List Tag) (keywords : List String) : List Tag :=
  keywords.foldl (fun bs k => if k ∈ excluded then bs else bumpBucket bs k) bs

/-- The loop body of `buildDerivedTags` for one leaf.  The keyword set is
computed first (through the null-tolerant `getLeafName`), then the
property read `leaf.path` throws for a nullish leaf; for an object leaf
a missing `path` is coerced to the property key `"undefined"`. -/
def tagStep (excluded : List String) (acc : List Tag × List (String × List String))
    (leaf : JsLeaf) : Except String (List Tag × List (String × List String)) :=
  let keywords := leafKeywords leaf
  match leaf with
  | .nullish => .error nullishLeafError
  | .obj path _ =>
    let key := path.getD "undefined"
    let ix := setKeywordIndex acc.2 key keywords
    .ok (bumpAll excluded acc.1 keywords, ix)

/-- Embedding of `buildDerivedTags` (renderer.js lines 908–939).  A
non-array `leaves` or `excludedTags` argument is the `none` case and is
replaced by `[]`; the result is the promoted tag list together with the
keyword index, or the thrown `TypeError`. -/
def buildDerivedTags (leaves : Option (List JsLeaf)) (excludedTags : Option (List String)) :
    Except String (List Tag × List (String × List String)) := do
  let excluded := excludedTags.getD []
  let safeLeaves := leaves.getD []
  let r ← safeLeaves.foldlM (tagStep excluded) ([], [])
  return (r.1.filter (fun t => MIN_TAG_OCCURRENCE ≤ t.count), r.2)

example :
    buildDerivedTags
      (some [JsLeaf.obj (some "/r/a") (some "Beach Trip"),
             JsLeaf.obj (some "/r/b") (some "Beach Party"),
             JsLeaf.obj (some "/r/c") (some "Mountain Trip")]) (some []) =
    Except.ok
      ([⟨"beach", "Beach", 2⟩, ⟨"trip", "Trip", 2⟩],
       [("/r/a", ["beach", "trip"]), ("/r/b", ["beach", "party"]),
        ("/r/c", ["mountain", "trip"])]) := rfl

example :
    buildDerivedTags (some [JsLeaf.nullish]) none = Except.error nullishLeafError := rfl

/-! ## Page fetcher (`listMediaFiles`, directoryScanner.js lines 102–182)

The filesystem read and the media-extension filter are external I/O; the
embedding takes the directory's computed media listing (the `mediaFiles`
array) as a parameter and models the offset/limit arithmetic and the
slice exactly.  `options.offset`/`options.limit` are JavaScript numbers:
possibly `NaN` (also the result of `Number(undefined)`), `±Infinity`, or
a finite rational. -/

/-- A JavaScript number as consumed by `Number(value)` in the scanner. -/
inductive JsNumber where
  | nan
  | posInf
  | negInf
  | fin (q : ℚ)
deriving DecidableEq

/-- Embedding of `normalizeOffset`: non-finite or negative becomes 0,
otherwise `Math.floor`. -/
def normalizeOffset (value : JsNumber) : Nat :=
  match value with
  | .fin q => if q < 0 then 0 else q.floor.toNat
  | _ => 0

/-- Embedding of `normalizeLimit`: a non-finite or non-positive value
falls back to `max(floor(fallback), 0)` (the fallback itself is the
always-finite `total - offset`), otherwise `Math.floor`. -/
def normalizeLimit (value : JsNumber) (fallback : Int) : Nat :=
  let normalizedFallback := (max fallback 0).toNat
  match value with
  | .fin q => if q ≤ 0 then normalizedFallback else q.floor.toNat
  | _ => normalizedFallback

/-- JavaScript `array.slice(start, end)` for clamped `0 ≤ start`, `end`. -/
def jsSlice {α : Type} (l : List α) (start stop : Nat) : List α :=
  (l.drop start).take (stop - start)

/-- The result shape of `listMediaFiles`. -/
structure MediaPage (α : Type) where
  files : List α
  total : Nat
  offset : Nat
  nextOffset : Nat
  hasMore : Bool
deriving DecidableEq

/-- Embedding of the success path of `listMediaFiles` (directoryScanner.js
lines 121–182) over the directory's media listing `mediaFiles`. -/
def listMediaFiles {α : Type} (mediaFiles : List α) (optOffset optLimit : JsNumber) :
    MediaPage α :=
  let total := mediaFiles.length
  let offset := normalizeOffset optOffset
  let limit := normalizeLimit optLimit ((total : Int) - (offset : Int))
  let start := min offset total
  let stop := if 0 < limit then min (start + limit) total else total
  { files := jsSlice mediaFiles start stop
    total := total
    offset := start
    nextOffset := stop
    hasMore := decide (stop < total) }

example :
    listMediaFiles ["a", "b", "c", "d", "e"] (.fin 1) (.fin 2) =
      { files := ["b", "c"], total := 5, offset := 1, nextOffset := 3, hasMore := true } := by
  decide

example :
    listMediaFiles ["a", "b", "c"] (.fin (-7)) .nan =
      { files := ["a", "b", "c"], total := 3, offset := 0, nextOffset := 3, hasMore := false } := by
  decide

example :
    listMediaFiles ["a", "b", "c"] (.fin 7) (.fin 0) =
      { files := [], total := 3, offset := 3, nextOffset := 3, hasMore := false } := by
  decide

/-! ## Media session manager and viewer navigator (renderer.js)

The renderer is a single-threaded event loop.  The embedding represents
the module-level mutable state of renderer.js as `RendererState` and
every entry point that can run to completion between suspension points
as a pure state transformer; an `Event` is one such entry (a user
action, one animation frame of the incremental initial render, the
settling of the initial render promise, or the resolution/rejection of
one page-fetch promise).  JavaScript object identity of session objects
is modelled by a store of sessions keyed by an allocation counter
(`sid`); `mediaSession === session` becomes `sid = currentSid`.
Promises are identified by an allocation counter (`pid`); an in-flight
page fetch is a `Fetch` record, the not-yet-settled initial render of a
session is a `RenderJob`.  DOM elements are assumed present, and the
`mediaApi.fetchNextMediaChunk` capability presence is the constant
`hasFetchApi`.  Modelled DOM state: the progress bar
(`ProgressState`, hide timers as a pending flag), the viewer's loading
placeholder visibility and filename text.  Navigation-button disabled
flags, CSS, the grid's thumbnail cards and the console are not
modelled; `renderMediaChunk`'s per-item `updateMediaProgress` calls
collapse to the final call, the only one observable at a suspension
point. -/

/-- One media file as delivered by the page fetcher. -/
structure MediaFile where
  name : String
  path : String
  fileUrl : String
  ftype : String
deriving DecidableEq

/-- `MEDIA_RENDER_BATCH_SIZE` (renderer.js line 41). -/
def MEDIA_RENDER_BATCH_SIZE : Nat := 12

/-- `MEDIA_PROGRESS_MIN_ITEMS` (renderer.js line 42). -/
def MEDIA_PROGRESS_MIN_ITEMS : Nat := MEDIA_RENDER_BATCH_SIZE * 2

/-- A media session object (`createEmptyMediaSession`, renderer.js
lines 1369–1378).  `loadingPromise` holds the promise id of the
in-flight page fetch or not-yet-settled initial render. -/
structure Session where
  requestId : Nat
  totalCount : Nat
  items : List MediaFile
  pendingIndex : Option Nat
  loadingPromise : Option Nat
  leafPath : Option String
deriving DecidableEq

/-- Embedding of `createEmptyMediaSession`. -/
def createEmptyMediaSession : Session :=
  { requestId := 0, totalCount := 0, items := [], pendingIndex := none,
    loadingPromise := none, leafPath := none }

/-- The viewer state (`createMediaViewerState`, renderer.js lines
1380–1387) together with the modelled viewer DOM: the loading
placeholder's `hidden` flag and the filename text. -/
structure ViewerState where
  isOpen : Bool
  index : Int
  sessionRequestId : Nat
  currentFile : Option MediaFile
  loadingHidden : Bool
  filenameText : String
deriving DecidableEq

/-- Embedding of `createMediaViewerState` plus the initial DOM state. -/
def createMediaViewerState : ViewerState :=
  { isOpen := false, index := -1, sessionRequestId := 0, currentFile := none,
    loadingHidden := true, filenameText := "" }

/-- The modelled progress-bar state: `mediaProgressTotalCount`, the
element's visibility, its `data-state` attribute, its label text and
whether a hide timer is pending. -/
structure ProgressState where
  totalCount : Nat
  visible : Bool
  stateTag : String
  label : String
  hideTimer : Bool
deriving DecidableEq

/-- The progress bar before any loading starts. -/
def emptyProgress : ProgressState :=
  { totalCount := 0, visible := false, stateTag := "", label := "", hideTimer := false }

/-- An in-flight page fetch: the values captured by the promise chain in
`fetchNextMediaChunk` (promise id, session object, `requestId`,
`offset`, and the requested leaf path). -/
structure Fetch where
  fid : Nat
  sid : Nat
  requestId : Nat
  offset : Nat
  leafPath : String
deriving DecidableEq

/-- A not-yet-settled initial render (`renderMediaIncrementally` plus
the `finally` handler in `startMediaLoadingForLeaf`): promise id,
session object, abort-controller id, remaining queue, and whether the
leaf's `mediaFiles` array was empty (tested by the `finally`). -/
structure RenderJob where
  pid : Nat
  sid : Nat
  cid : Nat
  queue : List MediaFile
  filesWasEmpty : Bool
deriving DecidableEq

/-- A leaf-directory record as consumed by `renderMedia` /
`startMediaLoadingForLeaf` / `getLeafMediaTotal`: `mediaFiles` is `none`
when absent or not an array, and the five candidate count properties
are modelled as optional integers. -/
structure LeafData where
  path : Option String
  displayPath : String
  mediaFiles : Option (List MediaFile)
  totalMediaCount : Option Int
  totalCount : Option Int
  mediaCount : Option Int
  count : Option Int
  total : Option Int
deriving DecidableEq

/-- A value the page-fetch promise can resolve with, as consumed by
`normalizeMediaChunkResult`: nullish, a bare array, or an object with
optional `files`, the four total-count candidates and an ignored
`error` field. -/
inductive ChunkResult where
  | nullish
  | arr (files : List MediaFile)
  | obj (files : Option (List MediaFile)) (totalCount : Option Int) (total : Option Int)
      (count : Option Int) (totalItems : Option Int) (error : Option String)
deriving DecidableEq

/-- The module-level mutable state of renderer.js that the media-session
engine reads and writes. -/
structure RendererState where
  sessions : List (Nat × Session)
  currentSid : Nat
  nextSid : Nat
  mediaSessionSequence : Nat
  inFlight : List Fetch
  renderJobs : List RenderJob
  nextPid : Nat
  renderAbort : Option Nat
  abortedCids : List Nat
  nextCid : Nat
  viewer : ViewerState
  progress : ProgressState
  hasFetchApi : Bool
deriving DecidableEq

/-- Look a session object id up in a session store. -/
def lookupSid (sessions : List (Nat × Session)) (sid : Nat) : Option Session :=
  (sessions.find? (fun p => p.1 = sid)).map (fun p => p.2)

/-- Mutate the session object `sid` in place in a session store. -/
def updateSid (sessions : List (Nat × Session)) (sid : Nat) (f : Session → Session) :
    List (Nat × Session) :=
  sessions.map (fun p => if p.1 = sid then (p.1, f p.2) else p)

/-- Dereference a session object id in the store. -/
def getSession (st : RendererState) (sid : Nat) : Option Session :=
  lookupSid st.sessions sid

/-- Mutate the session object `sid` in place. -/
def updateSession (st : RendererState) (sid : Nat) (f : Session → Session) : RendererState :=
  { st with sessions := updateSid st.sessions sid f }

/-- The module-level `mediaSession` reference. -/
def currentSession (st : RendererState) : Session :=
  (getSession st st.currentSid).getD createEmptyMediaSession

/-- Whether the abort signal of controller `cid?` reports aborted. -/
def signalAborted (st : RendererState) (cid? : Option Nat) : Bool :=
  match cid? with
  | some cid => st.abortedCids.contains cid
  | none => false

/-- Embedding of `getMediaSessionTotal` (renderer.js lines 1415–1423). -/
def getMediaSessionTotal (s : Session) : Nat :=
  if 0 < s.totalCount then s.totalCount else s.items.length

/-- Embedding of `getLeafMediaTotal` (renderer.js lines 1239–1259): the
first finite non-negative count candidate. -/
def getLeafMediaTotal (leaf : LeafData) : Option Nat :=
  [leaf.totalMediaCount, leaf.totalCount, leaf.mediaCount, leaf.count, leaf.total].findSome?
    (fun v =>
      match v with
      | some i => if 0 ≤ i then some i.toNat else none
      | none => none)

/-- Embedding of `normalizeMediaChunkResult` (renderer.js lines
1798–1819): the files array and the first finite non-negative total
candidate; the `error` field is ignored. -/
def normalizeMediaChunkResult (result : ChunkResult) : List MediaFile × Option Nat :=
  match result with
  | .nullish => ([], none)
  | .arr files => (files, none)
  | .obj files totalCount total count totalItems _error =>
    let fs := files.getD []
    let cand := [totalCount, total, count, totalItems].findSome?
      (fun v =>
        match v with
        | some i => if 0 ≤ i then some i.toNat else none
        | none => none)
    (fs, cand)

/-- Embedding of `Math.max(0, Math.min(index, total - 1))`. -/
def clampIndex (index : Int) (total : Nat) : Nat :=
  (max 0 (min index ((total : Int) - 1))).toNat

/-- Embedding of `resetMediaProgress` on the progress state (timer
cleared, counter zeroed, element hidden and emptied). -/
def resetMediaProgressP (_p : ProgressState) : ProgressState := emptyProgress

/-- Embedding of `updateMediaProgress` on the progress state. -/
def updateMediaProgressP (p : ProgressState) (loaded : Nat) : ProgressState :=
  if p.totalCount = 0 then p
  else
    let clamped := min loaded p.totalCount
    { p with label := "加载中 " ++ toString clamped ++ " / " ++ toString p.totalCount }

/-- Embedding of `beginMediaProgress` on the progress state. -/
def beginMediaProgressP (p : ProgressState) (total : Nat) : ProgressState :=
  let p := if p.hideTimer then { p with hideTimer := false } else p
  if total = 0 ∨ total < MEDIA_PROGRESS_MIN_ITEMS then resetMediaProgressP p
  else
    updateMediaProgressP
      { p with totalCount := total, visible := true, stateTag := "loading" } 0

/-- Embedding of `ensureMediaProgressTracking` on the progress state;
`itemsLen` is the read of `mediaSession?.items?.length ?? 0`. -/
def ensureMediaProgressTrackingP (p : ProgressState) (itemsLen : Nat) (total : Nat) :
    ProgressState :=
  if total = 0 then p
  else
    let normalizedTotal := max total itemsLen
    if normalizedTotal < MEDIA_PROGRESS_MIN_ITEMS then p
    else if p.totalCount = 0 then
      updateMediaProgressP (beginMediaProgressP p normalizedTotal) itemsLen
    else if p.totalCount < normalizedTotal then
      updateMediaProgressP { p with totalCount := normalizedTotal } itemsLen
    else p

/-- Embedding of `finishMediaProgress` on the progress state. -/
def finishMediaProgressP (p : ProgressState) : ProgressState :=
  if p.totalCount = 0 then resetMediaProgressP p
  else
    let p := updateMediaProgressP p p.totalCount
    { p with label := "加载完成", stateTag := "complete", hideTimer := true }

/-- Embedding of `fetchNextMediaChunk` (renderer.js lines 1737–1796) up
to its first suspension point: either no fetch is issued (missing
session, promise already in flight, capability absent, or no leaf
path) or a new fetch with a fresh promise id is recorded and stored in
`loadingPromise`.  Returns the state and the returned promise (id). -/
def fetchNextMediaChunk (st : RendererState) (sid : Nat) : RendererState × Option Nat :=
  match getSession st sid with
  | none => (st, none)
  | some s =>
    match s.loadingPromise with
    | some p => (st, some p)
    | none =>
      if !st.hasFetchApi then (st, none)
      else
        match s.leafPath with
        | none => (st, none)
        | some lp =>
          let fid := st.nextPid
          let f : Fetch :=
            { fid := fid, sid := sid, requestId := s.requestId,
              offset := s.items.length, leafPath := lp }
          let st := { st with inFlight := st.inFlight ++ [f], nextPid := st.nextPid + 1 }
          let st := updateSession st sid (fun s0 => { s0 with loadingPromise := some fid })
          (st, some fid)

/-- Embedding of `ensureMediaViewerActive` (renderer.js lines 1425–1442). -/
def ensureMediaViewerActive (st : RendererState) (sessionRequestId : Nat) : RendererState :=
  { st with viewer := { st.viewer with isOpen := true, sessionRequestId := sessionRequestId } }

/-- Display text for the viewer filename: `file?.name || file?.path || ''`. -/
def fileDisplayName (f : MediaFile) : String :=
  if f.name ≠ "" then f.name else if f.path ≠ "" then f.path else ""

/-- Embedding of `showMediaViewerLoadingState` (renderer.js lines
1478–1517): viewer activated for the current session, media elements
cleared, loading placeholder shown, index recorded, no current file. -/
def showMediaViewerLoadingState (st : RendererState) (index : Nat) (_total : Nat) :
    RendererState :=
  let st := ensureMediaViewerActive st (currentSession st).requestId
  let v := { st.viewer with loadingHidden := false, filenameText := "正在加载…", index := (index : Int), currentFile := none }
  { st with viewer := v }

/-- Embedding of `showMediaViewerItem` (renderer.js lines 1519–1607). -/
def showMediaViewerItem (st : RendererState) (index : Int) : RendererState :=
  let s := currentSession st
  if s.requestId = 0 then st
  else
    let total := getMediaSessionTotal s
    if total = 0 then st
    else
      let targetIndex := clampIndex index total
      if s.items.length ≤ targetIndex then
        let st := updateSession st st.currentSid
          (fun s0 => { s0 with pendingIndex := some targetIndex })
        let st := showMediaViewerLoadingState st targetIndex total
        (fetchNextMediaChunk st st.currentSid).1
      else
        match s.items[targetIndex]? with
        | none => st
        | some file =>
          let st := ensureMediaViewerActive st s.requestId
          let st := updateSession st st.currentSid (fun s0 => { s0 with pendingIndex := none })
          let v := { st.viewer with loadingHidden := true, filenameText := fileDisplayName file, currentFile := some file, index := (targetIndex : Int), sessionRequestId := s.requestId }
          let st := { st with viewer := v }
          if s.items.length ≤ targetIndex + 2 ∧ s.items.length < total then
            (fetchNextMediaChunk st st.currentSid).1
          else st

/-- Embedding of `handleMediaViewerItemsAppended` (renderer.js lines
1389–1413) called with the session object `sid`. -/
def handleMediaViewerItemsAppended (st : RendererState) (sid : Nat) : RendererState :=
  if sid ≠ st.currentSid then st
  else
    let s := currentSession st
    match s.pendingIndex with
    | some pk =>
      if pk < s.items.length ∧ st.viewer.isOpen ∧ st.viewer.sessionRequestId = s.requestId then
        let st := updateSession st st.currentSid (fun s0 => { s0 with pendingIndex := none })
        showMediaViewerItem st (pk : Int)
      else st
    | none => st

/-- Embedding of `renderMediaChunk` (renderer.js lines 1341–1367):
append the chunk to the session's items, update the progress label, and
notify the viewer. -/
def renderMediaChunk (st : RendererState) (sid : Nat) (chunk : List MediaFile)
    (signalCid : Option Nat) : RendererState :=
  if chunk.isEmpty || signalAborted st signalCid then st
  else
    let st := updateSession st sid (fun s0 => { s0 with items := s0.items ++ chunk })
    let p := updateMediaProgressP st.progress (((getSession st sid).getD createEmptyMediaSession).items.length)
    let st := { st with progress := p }
    handleMediaViewerItemsAppended st sid

/-- First phase of the `then` handler of the page-fetch promise
(renderer.js lines 1763–1769): raise `totalCount` to `max(reported,
items.length)` when strictly larger and track progress.  `s` is the
read of the session before the update. -/
def applyChunkTotals (st : RendererState) (sid : Nat) (s : Session) (rep : Option Nat) :
    RendererState :=
  match rep with
  | some tc =>
    let normalizedTotal := max tc s.items.length
    let st :=
      if s.totalCount < normalizedTotal then
        updateSession st sid (fun s0 => { s0 with totalCount := normalizedTotal })
      else st
    let p := ensureMediaProgressTrackingP st.progress (currentSession st).items.length normalizedTotal
    { st with progress := p }
  | none => st

/-- Embedding of the `then` handler of the page-fetch promise in
`fetchNextMediaChunk` (renderer.js lines 1756–1781), after the
staleness guard has passed: normalize the result, apply the total
update, and append any files unless the current render signal is
aborted. -/
def applyMediaChunk (st : RendererState) (sid : Nat) (result : ChunkResult) : RendererState :=
  match getSession st sid with
  | none => st
  | some s =>
    let n := normalizeMediaChunkResult result
    let st := applyChunkTotals st sid s n.2
    if n.1.isEmpty then st
    else if signalAborted st st.renderAbort then st
    else renderMediaChunk st sid n.1 st.renderAbort

/-- The `finally` handler of the page-fetch promise: clear
`loadingPromise` if it still is this promise. -/
def clearLoadingPromiseIfEq (st : RendererState) (sid fid : Nat) : RendererState :=
  updateSession st sid
    (fun s0 => if s0.loadingPromise = some fid then { s0 with loadingPromise := none } else s0)

/-- Delivery of a page-fetch resolution: run the `then` handler unless
the response is stale (`session !== mediaSession || requestId !==
session.requestId`), then the `finally` handler.  The fetch leaves the
in-flight set in either case. -/
def applyFetchResolve (st : RendererState) (fid : Nat) (result : ChunkResult) : RendererState :=
  match st.inFlight.find? (fun f => f.fid = fid) with
  | none => st
  | some f =>
    let st := { st with inFlight := st.inFlight.filter (fun g => g.fid ≠ fid) }
    let stale :=
      match getSession st f.sid with
      | none => true
      | some s => f.sid ≠ st.currentSid ∨ f.requestId ≠ s.requestId
    let st := if stale then st else applyMediaChunk st f.sid result
    clearLoadingPromiseIfEq st f.sid f.fid

/-- Delivery of a page-fetch rejection: the `catch` handler only writes
to the console (skipping even that for an `AbortError`), so the only
state effect is the `finally` handler. -/
def applyFetchReject (st : RendererState) (fid : Nat) (_isAbortError : Bool) : RendererState :=
  match st.inFlight.find? (fun f => f.fid = fid) with
  | none => st
  | some f =>
    let st := { st with inFlight := st.inFlight.filter (fun g => g.fid ≠ fid) }
    clearLoadingPromiseIfEq st f.sid f.fid

/-- Embedding of `closeMediaViewer` (renderer.js lines 1662–1721). -/
def closeMediaViewer (st : RendererState) (force : Bool) : RendererState :=
  let st := updateSession st st.currentSid (fun s0 => { s0 with pendingIndex := none })
  if !st.viewer.isOpen && !force then st
  else
    { st with viewer :=
      { isOpen := false, index := -1, sessionRequestId := 0, currentFile := none,
        loadingHidden := true, filenameText := "" } }

/-- Embedding of `resetMediaView` (renderer.js lines 840–855): abort the
current render controller, reset the progress bar, install a fresh
empty `mediaSession`, and force-close the viewer. -/
def resetMediaView (st : RendererState) : RendererState :=
  let st :=
    match st.renderAbort with
    | some cid => { st with abortedCids := st.abortedCids ++ [cid], renderAbort := none }
    | none => st
  let st := { st with progress := resetMediaProgressP st.progress }
  let st := { st with sessions := (st.nextSid, createEmptyMediaSession) :: st.sessions,
                      currentSid := st.nextSid, nextSid := st.nextSid + 1 }
  closeMediaViewer st true

/-- The session object allocated by `startMediaLoadingForLeaf`
(renderer.js lines 1276–1283), with the bumped sequence number as its
`requestId` and `max(files.length, totalHint)` as its initial total. -/
def freshSessionFor (st : RendererState) (leaf : LeafData) : Session :=
  { requestId := st.mediaSessionSequence + 1,
    totalCount := max (leaf.mediaFiles.getD []).length ((getLeafMediaTotal leaf).getD 0),
    items := [], pendingIndex := none, loadingPromise := none, leafPath := leaf.path }

/-- Embedding of `startMediaLoadingForLeaf` (renderer.js lines
1261–1326) up to the synchronous first render batch: fresh abort
controller, fresh session with the next `requestId` and the initial
total installed as the current session, and progress begun. -/
def startMediaSetup (st : RendererState) (leaf : LeafData) : RendererState :=
  let cid := st.nextCid
  let st := { st with renderAbort := some cid, nextCid := st.nextCid + 1 }
  let files := leaf.mediaFiles.getD []
  let totalHint := getLeafMediaTotal leaf
  let initialTotal := max files.length (totalHint.getD 0)
  let sid := st.nextSid
  let st := { st with mediaSessionSequence := st.mediaSessionSequence + 1 }
  let newSession : Session :=
    { requestId := st.mediaSessionSequence, totalCount := initialTotal, items := [],
      pendingIndex := none, loadingPromise := none, leafPath := leaf.path }
  let st := { st with sessions := (sid, newSession) :: st.sessions,
                      currentSid := sid, nextSid := st.nextSid + 1 }
  { st with progress := beginMediaProgressP st.progress initialTotal }

/-- Continuation of `startMediaLoadingForLeaf`: the first
`MEDIA_RENDER_BATCH_SIZE`-file batch of `renderMediaIncrementally`, which
runs synchronously before `loadingPromise` is assigned. -/
def startMediaSyncPhase (st : RendererState) (leaf : LeafData) : RendererState :=
  let cid := st.nextCid
  let files := leaf.mediaFiles.getD []
  let st3 := startMediaSetup st leaf
  if !files.isEmpty && !signalAborted st3 (some cid) then
    renderMediaChunk st3 st.nextSid (files.take MEDIA_RENDER_BATCH_SIZE) (some cid)
  else st3

/-- Embedding of `startMediaLoadingForLeaf` (renderer.js lines
1261–1326) up to its first suspension point: the synchronous part
followed by recording the pending render job as the session's
`loadingPromise` (renderer.js line 1289). -/
def startMediaLoadingForLeaf (st : RendererState) (leaf : LeafData) : RendererState :=
  let sid := st.nextSid
  let cid := st.nextCid
  let files := leaf.mediaFiles.getD []
  let st4 := startMediaSyncPhase st leaf
  let pid := st4.nextPid
  let job : RenderJob :=
    { pid := pid, sid := sid, cid := cid,
      queue := files.drop MEDIA_RENDER_BATCH_SIZE, filesWasEmpty := files.isEmpty }
  let st5 := { st4 with renderJobs := st4.renderJobs ++ [job], nextPid := st4.nextPid + 1 }
  updateSession st5 sid (fun s0 => { s0 with loadingPromise := some pid })

/-- Embedding of the `canLoadMore` computation in `renderMedia`
(renderer.js lines 824–827). -/
def canLoadMore (st : RendererState) (leaf : LeafData) : Bool :=
  match getLeafMediaTotal leaf with
  | some n => 0 < n
  | none => st.hasFetchApi

/-- Embedding of the media part of `renderMedia` (renderer.js lines
795–838): reset the view, then — when a leaf is selected and is not
empty-with-nothing-to-load — start loading it. -/
def renderMedia (st : RendererState) (leaf? : Option LeafData) : RendererState :=
  let st := resetMediaView st
  match leaf? with
  | none => st
  | some leaf =>
    let initialFiles := leaf.mediaFiles.getD []
    if initialFiles.isEmpty && !canLoadMore st leaf then st
    else startMediaLoadingForLeaf st leaf

/-- One animation frame of `renderMediaIncrementally` (renderer.js lines
1328–1339): render the next batch if the queue is nonempty and the
signal is not aborted. -/
def applyRenderStep (st : RendererState) (pid : Nat) : RendererState :=
  match st.renderJobs.find? (fun j => j.pid = pid) with
  | none => st
  | some j =>
    if j.queue.isEmpty || signalAborted st (some j.cid) then st
    else
      let st := renderMediaChunk st j.sid (j.queue.take MEDIA_RENDER_BATCH_SIZE) (some j.cid)
      let jobs := st.renderJobs.map (fun j0 => if j0.pid = pid then { j0 with queue := j0.queue.drop MEDIA_RENDER_BATCH_SIZE } else j0)
      { st with renderJobs := jobs }

/-- First half of the `finally` handler in `startMediaLoadingForLeaf`
(renderer.js lines 1299–1311): drop the settled job, clear the
session's `loadingPromise` when it is still the current session, and
finish the progress bar when the job's controller is still current. -/
def renderSettledCleanup (st : RendererState) (pid sid cid : Nat) : RendererState :=
  let st := { st with renderJobs := st.renderJobs.filter (fun j0 => j0.pid ≠ pid) }
  let st :=
    if st.currentSid = sid then
      updateSession st sid (fun s0 => { s0 with loadingPromise := none })
    else st
  if st.renderAbort = some cid then
    { st with renderAbort := none, progress := finishMediaProgressP st.progress }
  else st

/-- Settling of the initial-render promise: the `finally` handler in
`startMediaLoadingForLeaf` (renderer.js lines 1299–1325).  It can only
run once the render loop has exited, i.e. the queue is exhausted or the
signal aborted; an earlier delivery is not enabled and is a no-op. -/
def applyRenderSettled (st : RendererState) (pid : Nat) : RendererState :=
  match st.renderJobs.find? (fun j => j.pid = pid) with
  | none => st
  | some j =>
    if !j.queue.isEmpty && !signalAborted st (some j.cid) then st
    else
      let st := renderSettledCleanup st pid j.sid j.cid
      let st := handleMediaViewerItemsAppended st j.sid
      let s := (getSession st j.sid).getD createEmptyMediaSession
      if st.currentSid = j.sid ∧ j.filesWasEmpty ∧ 0 < s.totalCount ∧ st.hasFetchApi
          ∧ !signalAborted st (some j.cid) then
        (fetchNextMediaChunk st j.sid).1
      else st

/-- Embedding of `openMediaViewerAtIndex` (renderer.js lines 1444–1476). -/
def openMediaViewerAtIndex (st : RendererState) (index : Int) : RendererState :=
  let s := currentSession st
  let total := getMediaSessionTotal s
  if total = 0 then st
  else
    let clampedIndex := clampIndex index total
    let st := ensureMediaViewerActive st s.requestId
    if s.items.length ≤ clampedIndex then
      let st := updateSession st st.currentSid
        (fun s0 => { s0 with pendingIndex := some clampedIndex })
      let st := showMediaViewerLoadingState st clampedIndex total
      (fetchNextMediaChunk st st.currentSid).1
    else
      let st := updateSession st st.currentSid (fun s0 => { s0 with pendingIndex := none })
      showMediaViewerItem st (clampedIndex : Int)

/-- Embedding of `stepMediaViewer` (renderer.js lines 1635–1660). -/
def stepMediaViewer (st : RendererState) (delta : Int) : RendererState :=
  if !st.viewer.isOpen || delta = 0 then st
  else
    let total := getMediaSessionTotal (currentSession st)
    if total = 0 then st
    else
      let currentIndex : Int :=
        match (currentSession st).pendingIndex with
        | some pk => (pk : Int)
        | none => st.viewer.index
      if currentIndex < 0 then st
      else
        let nextIndex : Int := (clampIndex (currentIndex + delta) total : Int)
        if nextIndex = currentIndex then st
        else openMediaViewerAtIndex st nextIndex

/-- One event of the renderer's single-threaded loop. -/
inductive Event where
  | selectLeaf (leaf : LeafData)
  | deselect
  | renderStep (pid : Nat)
  | renderSettled (pid : Nat)
  | fetchResolve (fid : Nat) (result : ChunkResult)
  | fetchReject (fid : Nat) (isAbortError : Bool)
  | openViewerAt (index : Int)
  | stepViewer (delta : Int)
  | closeViewer
deriving DecidableEq

/-- The state transformer of one event. -/
def applyEvent (st : RendererState) : Event → RendererState
  | .selectLeaf leaf => renderMedia st (some leaf)
  | .deselect => renderMedia st none
  | .renderStep pid => applyRenderStep st pid
  | .renderSettled pid => applyRenderSettled st pid
  | .fetchResolve fid result => applyFetchResolve st fid result
  | .fetchReject fid b => applyFetchReject st fid b
  | .openViewerAt index => openMediaViewerAtIndex st index
  | .stepViewer delta => stepMediaViewer st delta
  | .closeViewer => closeMediaViewer st false

/-- The module state right after renderer.js loads. -/
def initState (hasApi : Bool) : RendererState :=
  { sessions := [(0, createEmptyMediaSession)], currentSid := 0, nextSid := 1,
    mediaSessionSequence := 0, inFlight := [], renderJobs := [], nextPid := 0,
    renderAbort := none, abortedCids := [], nextCid := 0,
    viewer := createMediaViewerState, progress := emptyProgress, hasFetchApi := hasApi }

/-- Run a sequence of events from the initial state. -/
def applyEvents (hasApi : Bool) (es : List Event) : RendererState :=
  es.foldl applyEvent (initState hasApi)

/-- A renderer state that an actual execution can be in at a suspension
point. -/
def Reachable (st : RendererState) : Prop :=
  ∃ hasApi es, applyEvents hasApi es = st

/-- Session totals never decrease from `st` to `st'`: every stored
session survives with a `totalCount` at least as large. -/
def TotalMono (st st' : RendererState) : Prop :=
  ∀ sid s, getSession st sid = some s →
    ∃ s', getSession st' sid = some s' ∧ s.totalCount ≤ s'.totalCount

/-- A leaf directory with no inline media files and a 30-item total
hint, as used for concrete executions. -/
def leafHome : LeafData :=
  { path := some "/root/a", displayPath := "a", mediaFiles := some [],
    totalMediaCount := some 30, totalCount := none, mediaCount := none,
    count := none, total := none }

/-- A second leaf directory with a 5-item total hint. -/
def leafBravo : LeafData :=
  { path := some "/root/b", displayPath := "b", mediaFiles := some [],
    totalMediaCount := some 5, totalCount := none, mediaCount := none,
    count := none, total := none }

/-- The renderer state after selecting `leafHome` and letting the
initial render settle: session 2 is current with one page fetch (id 1)
in flight. -/
def stFetching : RendererState :=
  applyEvents true [Event.selectLeaf leafHome, Event.renderSettled 0]

/-- The single in-flight fetch of `stFetching`. -/
def fetchHome : Fetch :=
  { fid := 1, sid := 2, requestId := 1, offset := 0, leafPath := "/root/a" }

/-- The current session of `stFetching`. -/
def sessionHome : Session :=
  { requestId := 1, totalCount := 30, items := [], pendingIndex := none,
    loadingPromise := some 1, leafPath := some "/root/a" }

/-- The session created by selecting `leafBravo` from `stFetching`. -/
def sessionBravo : Session :=
  { requestId := 2, totalCount := 5, items := [], pendingIndex := none,
    loadingPromise := some 2, leafPath := some "/root/b" }

/-- A numbered media file for concrete executions. -/
def fileAt (n : Nat) : MediaFile :=
  { name := "f" ++ toString n, path := "/x/f" ++ toString n, fileUrl := "", ftype := "image" }

/-- A session with 8 loaded items out of 10 that is waiting to display
index 5. -/
def sessionWaiting : Session :=
  { requestId := 1, totalCount := 10, items := (List.range 8).map fileAt,
    pendingIndex := some 5, loadingPromise := none, leafPath := some "/x" }

/-- The viewer showing the loading placeholder for `sessionWaiting`. -/
def viewerWaiting : ViewerState :=
  { isOpen := true, index := 5, sessionRequestId := 1, currentFile := none,
    loadingHidden := false, filenameText := "正在加载…" }

/-- A renderer state in which `sessionWaiting` is current and a page
append has just made item 5 available. -/
def stWaiting : RendererState :=
  { sessions := [(0, sessionWaiting)], currentSid := 0, nextSid := 1,
    mediaSessionSequence := 1, inFlight := [], renderJobs := [], nextPid := 0,
    renderAbort := none, abortedCids := [], nextCid := 0,
    viewer := viewerWaiting, progress := emptyProgress, hasFetchApi := true }

/-! ## Lemmas about the tokenizer -/

theorem mem_foldl_dedup (x : String) :
    ∀ (l acc : List String),
      x ∈ l.foldl (fun acc y => if y ∈ acc then acc else acc ++ [y]) acc ↔ x ∈ acc ∨ x ∈ l := by
  intro l
  induction l with
  | nil => simp
  | cons a l ih =>
    intro acc
    rw [List.foldl_cons, ih]
    by_cases h : a ∈ acc
    · simp only [if_pos h, List.mem_cons]
      constructor
      · rintro (hx | hx)
        · exact Or.inl hx
        · exact Or.inr (Or.inr hx)
      · rintro (hx | hx | hx)
        · exact Or.inl hx
        · exact Or.inl (hx ▸ h)
        · exact Or.inr hx
    · simp only [if_neg h, List.mem_append, List.mem_singleton, List.mem_cons]
      tauto

theorem mem_dedupFirst {x : String} {l : List String} : x ∈ dedupFirst l ↔ x ∈ l := by
  rw [dedupFirst, mem_foldl_dedup]
  simp

theorem nodup_foldl_dedup :
    ∀ (l acc : List String), acc.Nodup →
      (l.foldl (fun acc y => if y ∈ acc then acc else acc ++ [y]) acc).Nodup := by
  intro l
  induction l with
  | nil => intro acc h; simpa using h
  | cons a l ih =>
    intro acc h
    rw [List.foldl_cons]
    apply ih
    by_cases ha : a ∈ acc
    · simpa [if_pos ha] using h
    · rw [if_neg ha]
      exact List.Nodup.append h (List.nodup_singleton a) (by simpa using ha)

theorem nodup_dedupFirst (l : List String) : (dedupFirst l).Nodup :=
  nodup_foldl_dedup l [] List.nodup_nil

/-- C8: Stopword and numeric suppression in the tokenizer.  Every
non-star token in the result of `extractKeywords` (tokens are already
case-folded there) is neither purely numeric, nor a numbered-section
stopword, nor of length ≤ 1; and
`extractKeywords "Vol2 Summer 2023" = ["summer"]`. -/
theorem stopword_numeric_suppression :
    (∀ (s t : String), t ∈ extractKeywords s → isStarToken t.data = false →
      isAllDigits t.data = false ∧ isNumberedKeyword t.data = false ∧ 1 < utf16Len t.data)
    ∧ extractKeywords "Vol2 Summer 2023" = ["summer"] := by
  constructor
  · intro s t hmem hstar
    rw [extractKeywords] at hmem
    split at hmem
    · simp at hmem
    · rw [mem_dedupFirst] at hmem
      obtain ⟨t', ht', rfl⟩ := List.mem_map.mp hmem
      have hkeep : keepToken t' = true := (List.mem_filter.mp ht').2
      have hdata : (String.mk t').data = t' := rfl
      rw [hdata] at hstar ⊢
      rw [keepToken, if_neg (by simp [hstar])] at hkeep
      split at hkeep
      · exact absurd hkeep (by simp)
      · split at hkeep
        · exact absurd hkeep (by simp)
        · exact ⟨by simp_all, by simp_all, by simpa using hkeep⟩
  · decide

/-- Witness for C8 at the spec's concrete example. -/
theorem stopword_numeric_suppression_witness :
    isAllDigits "summer".data = false ∧ isNumberedKeyword "summer".data = false
      ∧ 1 < utf16Len "summer".data :=
  stopword_numeric_suppression.1 "Vol2 Summer 2023" "summer" (by decide) (by decide)

/-- Does the string end with the star glyph? -/
def endsWithStar (l : List Char) : Bool := (l.getLast?.map isStar).getD false

/-- Does the string start with the star glyph? -/
def startsWithStar (l : List Char) : Bool := (l.head?.map isStar).getD false

theorem isStar_iff {c : Char} : isStar c = true ↔ c = starChar := by
  simp [isStar]

theorem mem_of_getLast? {l : List Char} {c : Char} (h : l.getLast? = some c) : c ∈ l := by
  have hne : l ≠ [] := by rintro rfl; simp at h
  rw [List.getLast?_eq_getLast_of_ne_nil hne] at h
  exact (Option.some.inj h) ▸ List.getLast_mem hne

theorem takeWhile_head_not {p : Char → Bool} {l : List Char}
    (h : ∀ c, l.head? = some c → p c = false) : l.takeWhile p = [] := by
  cases l with
  | nil => rfl
  | cons a l => rw [List.takeWhile_cons, h a rfl]; rfl

theorem dropWhile_head_not {p : Char → Bool} {l : List Char}
    (h : ∀ c, l.head? = some c → p c = false) : l.dropWhile p = l := by
  cases l with
  | nil => rfl
  | cons a l => rw [List.dropWhile_cons, h a rfl]; rfl

theorem takeWhile_replicate_star {post : List Char} (m : Nat)
    (h : ∀ c, post.head? = some c → isStar c = false) :
    (List.replicate m starChar ++ post).takeWhile isStar = List.replicate m starChar := by
  induction m with
  | zero => simpa using takeWhile_head_not h
  | succ m ih =>
    rw [List.replicate_succ, List.cons_append, List.takeWhile_cons]
    have hstar : isStar starChar = true := by decide
    simp [hstar, ih]

theorem dropWhile_replicate_star {post : List Char} (m : Nat)
    (h : ∀ c, post.head? = some c → isStar c = false) :
    (List.replicate m starChar ++ post).dropWhile isStar = post := by
  induction m with
  | zero => simpa using dropWhile_head_not h
  | succ m ih =>
    rw [List.replicate_succ, List.cons_append, List.dropWhile_cons]
    have hstar : isStar starChar = true := by decide
    simp [hstar, ih]

theorem dropWhile_append_of_exists {p : Char → Bool} {l : List Char} (z : List Char)
    (h : ∃ x ∈ l, p x = false) : (l ++ z).dropWhile p = l.dropWhile p ++ z := by
  induction l with
  | nil => obtain ⟨x, hx, _⟩ := h; simp at hx
  | cons a l ih =>
    rw [List.cons_append, List.dropWhile_cons, List.dropWhile_cons]
    by_cases hpa : p a = true
    · rw [if_pos hpa, if_pos hpa]
      apply ih
      obtain ⟨x, hx, hpx⟩ := h
      rcases List.mem_cons.mp hx with rfl | hx'
      · rw [hpa] at hpx; cases hpx
      · exact ⟨x, hx', hpx⟩
    · rw [if_neg hpa, if_neg hpa, List.cons_append]

theorem dropWhile_append_of_all {p : Char → Bool} {l : List Char} (z : List Char)
    (h : ∀ x ∈ l, p x = true) : (l ++ z).dropWhile p = z.dropWhile p := by
  induction l with
  | nil => rfl
  | cons a l ih =>
    rw [List.cons_append, List.dropWhile_cons, if_pos (h a (List.mem_cons_self a l))]
    exact ih fun x hx => h x (List.mem_cons_of_mem a hx)

theorem dropWhile_ne_nil_of_exists {p : Char → Bool} {l : List Char}
    (h : ∃ x ∈ l, p x = false) : l.dropWhile p ≠ [] := by
  induction l with
  | nil => obtain ⟨x, hx, _⟩ := h; simp at hx
  | cons a l ih =>
    rw [List.dropWhile_cons]
    by_cases hpa : p a = true
    · rw [if_pos hpa]
      apply ih
      obtain ⟨x, hx, hpx⟩ := h
      rcases List.mem_cons.mp hx with rfl | hx'
      · rw [hpa] at hpx; cases hpx
      · exact ⟨x, hx', hpx⟩
    · rw [if_neg hpa]; exact List.cons_ne_nil a l

theorem getLast?_dropWhile {p : Char → Bool} {l : List Char}
    (h : l.dropWhile p ≠ []) : (l.dropWhile p).getLast? = l.getLast? := by
  induction l with
  | nil => simp at h
  | cons a l ih =>
    rw [List.dropWhile_cons] at h ⊢
    by_cases hpa : p a = true
    · rw [if_pos hpa] at h ⊢
      have hl : l ≠ [] := by
        rintro rfl; simp at h
      rw [ih h]
      cases l with
      | nil => exact absurd rfl hl
      | cons b m => rw [List.getLast?_cons_cons]
    · rw [if_neg hpa]

theorem starRun_base {post : List Char} (n : Nat) (hn : 0 < n)
    (hpost : ∀ c, post.head? = some c → isStar c = false) :
    List.replicate n starChar ∈ scanRuns (List.replicate n starChar ++ post) := by
  obtain ⟨m, rfl⟩ : ∃ m, n = m + 1 := ⟨n - 1, (Nat.succ_pred_eq_of_pos hn).symm⟩
  rw [List.replicate_succ, List.cons_append, scanRuns_cons,
    if_pos (show isStar starChar = true by decide), takeWhile_replicate_star m hpost]
  exact List.mem_cons_self _ _

theorem starRun_mem_scanRuns :
    ∀ (k : Nat) (pre : List Char), pre.length ≤ k →
      ∀ (n : Nat) (post : List Char), 0 < n →
        (∀ c, pre.getLast? = some c → isStar c = false) →
        (∀ c, post.head? = some c → isStar c = false) →
        List.replicate n starChar ∈
          scanRuns (pre ++ (List.replicate n starChar ++ post)) := by
  intro k
  induction k with
  | zero =>
    intro pre hlen n post hn _ hpost
    have : pre = [] := List.length_eq_zero.mp (Nat.le_zero.mp hlen)
    subst this
    simpa using starRun_base n hn hpost
  | succ k ih =>
    intro pre hlen n post hn hpre hpost
    match pre with
    | [] => simpa using starRun_base n hn hpost
    | c :: pre' =>
      have hlen' : pre'.length ≤ k := Nat.le_of_succ_le_succ hlen
      have getLast_tail : pre' ≠ [] → ∀ d, pre'.getLast? = some d → isStar d = false := by
        intro hne d hd
        apply hpre
        cases pre' with
        | nil => exact absurd rfl hne
        | cons b m => rw [List.getLast?_cons_cons]; exact hd
      by_cases hc : isStar c = true
      · have hpre'ne : pre' ≠ [] := by
          rintro rfl
          exact absurd (hpre c rfl) (by simp [hc])
        obtain ⟨d, hd⟩ : ∃ d, pre'.getLast? = some d :=
          ⟨pre'.getLast hpre'ne, List.getLast?_eq_getLast_of_ne_nil hpre'ne⟩
        have hex : ∃ x ∈ pre', isStar x = false :=
          ⟨d, mem_of_getLast? hd, getLast_tail hpre'ne d hd⟩
        rw [List.cons_append, scanRuns_cons, if_pos hc]
        apply List.mem_cons_of_mem
        rw [dropWhile_append_of_exists _ hex]
        refine ih (pre'.dropWhile isStar)
          (le_trans (length_dropWhile_le _ _) hlen') n post hn ?_ hpost
        intro e he
        rw [getLast?_dropWhile (dropWhile_ne_nil_of_exists hex)] at he
        exact getLast_tail hpre'ne e he
      · by_cases hw : isWordChar c = true
        · rw [List.cons_append, scanRuns_cons,
            if_neg (by simp [Bool.not_eq_true] at hc ⊢; exact hc), if_pos hw]
          apply List.mem_cons_of_mem
          by_cases hall : ∀ x ∈ pre', isWordChar x = true
          · rw [dropWhile_append_of_all _ hall, dropWhile_head_not ?_]
            · exact ih [] (Nat.zero_le _) n post hn (by intro e he; simp at he) hpost
            · intro e he
              obtain ⟨m, rfl⟩ : ∃ m, n = m + 1 := ⟨n - 1, (Nat.succ_pred_eq_of_pos hn).symm⟩
              rw [List.replicate_succ, List.cons_append] at he
              simp only [List.head?_cons, Option.some.injEq] at he
              subst he
              decide
          · have hex : ∃ x ∈ pre', isWordChar x = false := by
              push_neg at hall
              obtain ⟨x, hx, hpx⟩ := hall
              exact ⟨x, hx, by simpa [Bool.not_eq_true] using hpx⟩
            have hpre'ne : pre' ≠ [] := by
              rintro rfl
              obtain ⟨x, hx, _⟩ := hex
              simp at hx
            rw [dropWhile_append_of_exists _ hex]
            refine ih (pre'.dropWhile isWordChar)
              (le_trans (length_dropWhile_le _ _) hlen') n post hn ?_ hpost
            intro e he
            rw [getLast?_dropWhile (dropWhile_ne_nil_of_exists hex)] at he
            exact getLast_tail hpre'ne e he
        · rw [List.cons_append, scanRuns_cons,
            if_neg (by simp [Bool.not_eq_true] at hc ⊢; exact hc),
            if_neg (by simp [Bool.not_eq_true] at hw ⊢; exact hw)]
          refine ih pre' hlen' n post hn ?_ hpost
          intro e he
          cases pre' with
          | nil => simp at he
          | cons b m =>
            exact getLast_tail (List.cons_ne_nil b m) e he

theorem starRun_mem_extractKeywords {s : String} {n : Nat} (hn : 0 < n)
    (hmem : List.replicate n starChar ∈ scanRuns s.data) (hs : s ≠ "") :
    String.mk (List.replicate n starChar) ∈ extractKeywords s := by
  have hne : (List.replicate n starChar).isEmpty = false := by
    cases n with
    | zero => exact absurd hn (by simp)
    | succ m => rfl
  have hall : (List.replicate n starChar).all isStar = true := by
    rw [List.all_eq_true]
    intro c hc
    rw [List.eq_of_mem_replicate hc]
    decide
  have hstarTok : isStarToken (List.replicate n starChar) = true := by
    rw [isStarToken, hne, hall]; rfl
  have hnotWs : ∀ c ∈ List.replicate n starChar, isJsWhitespace c = false := by
    intro c hc
    rw [List.eq_of_mem_replicate hc]
    decide
  have htrim : jsTrim (List.replicate n starChar) = List.replicate n starChar := by
    rw [jsTrim, dropWhile_head_not ?_]
    · apply List.rdropWhile_eq_self_iff.mpr
      intro hl h
      rw [hnotWs _ (List.getLast_mem hl)] at h
      cases h
    · intro c hc
      apply hnotWs
      exact List.mem_of_mem_head? hc
  rw [extractKeywords, if_neg hs]
  apply mem_dedupFirst.mpr
  apply List.mem_map.mpr
  refine ⟨List.replicate n starChar, ?_, rfl⟩
  apply List.mem_filter.mpr
  refine ⟨?_, by rw [keepToken, if_pos hstarTok]⟩
  apply List.mem_map.mpr
  refine ⟨List.replicate n starChar, ?_, by rw [if_pos hstarTok]⟩
  apply List.mem_filter.mpr
  refine ⟨?_, by rw [hne]; rfl⟩
  apply List.mem_map.mpr
  exact ⟨List.replicate n starChar, hmem, htrim⟩

/-- C7: Star exemption in the tokenizer.  Every maximal run of the star
glyph in the input (the characters before it do not end with a star and
the characters after it do not start with one) appears verbatim in the
result of `extractKeywords`, for every run length ≥ 1; and
`extractKeywords "⭐⭐ Trip" = ["⭐⭐", "trip"]`. -/
theorem star_exemption :
    (∀ (pre post : List Char) (n : Nat), 0 < n →
      endsWithStar pre = false → startsWithStar post = false →
      String.mk (List.replicate n starChar) ∈
        extractKeywords (String.mk (pre ++ (List.replicate n starChar ++ post))))
    ∧ extractKeywords "⭐⭐ Trip" = ["⭐⭐", "trip"] := by
  constructor
  · intro pre post n hn hpre hpost
    have hpre' : ∀ c, pre.getLast? = some c → isStar c = false := by
      intro c hc
      rw [endsWithStar, hc] at hpre
      simpa using hpre
    have hpost' : ∀ c, post.head? = some c → isStar c = false := by
      intro c hc
      rw [startsWithStar, hc] at hpost
      simpa using hpost
    apply starRun_mem_extractKeywords hn
    · exact starRun_mem_scanRuns pre.length pre (Nat.le_refl _) n post hn hpre' hpost'
    · intro h
      have hdata : pre ++ (List.replicate n starChar ++ post) = [] := congrArg String.data h
      have : (pre ++ (List.replicate n starChar ++ post)).length = 0 := by rw [hdata]; rfl
      simp [List.length_append, List.length_replicate] at this
      omega
  · decide

/-- Witness for C7: the star run of "T⭐⭐ " is retained. -/
theorem star_exemption_witness :
    String.mk (List.replicate 2 starChar) ∈
      extractKeywords (String.mk (['T'] ++ (List.replicate 2 starChar ++ [' ']))) :=
  star_exemption.1 ['T'] [' '] 2 (by decide) (by decide) (by decide)

/-! ## Lemmas about the tag aggregator -/

/-- The bucket record stored for keyword `k`, if any. -/
def bucketFind (bs : List Tag) (k : String) : Option Tag :=
  bs.find? (fun t => t.id = k)

/-- The occurrence counter stored for keyword `k` (0 when absent). -/
def bucketCount (bs : List Tag) (k : String) : Nat :=
  (bucketFind bs k).elim 0 Tag.count

/-- The number of leaves in the list whose keyword set contains `k`. -/
def kwCount (k : String) (ls : List JsLeaf) : Nat :=
  ls.countP (fun l => decide (k ∈ leafKeywords l))

/-- The property key under which a leaf is recorded in the keyword index. -/
def jsLeafKey (leaf : JsLeaf) : String :=
  match leaf with
  | .nullish => "null"
  | .obj path _ => path.getD "undefined"

theorem extractKeywords_nodup (name : String) : (extractKeywords name).Nodup := by
  rw [extractKeywords]
  split
  · exact List.nodup_nil
  · exact nodup_dedupFirst _

theorem find?_map_of_id_eq (g : Tag → Tag) (hg : ∀ t, (g t).id = t.id) (k : String) :
    ∀ bs : List Tag, (bs.map g).find? (fun t => t.id = k) =
      (bs.find? (fun t => t.id = k)).map g := by
  intro bs
  induction bs with
  | nil => rfl
  | cons t bs ih =>
    by_cases h : t.id = k
    · rw [List.map_cons, List.find?_cons_of_pos _ (by simp [hg, h]),
        List.find?_cons_of_pos _ (by simp [h]), Option.map_some']
    · rw [List.map_cons, List.find?_cons_of_neg _ (by simp [hg, h]),
        List.find?_cons_of_neg _ (by simp [h]), ih]

theorem find?_append_tag (p : Tag → Bool) :
    ∀ (l₁ l₂ : List Tag), (l₁ ++ l₂).find? p =
      ((l₁.find? p).map some).getD (l₂.find? p) := by
  intro l₁ l₂
  induction l₁ with
  | nil => rfl
  | cons t l₁ ih =>
    by_cases h : p t = true
    · rw [List.cons_append, List.find?_cons_of_pos _ h, List.find?_cons_of_pos _ h]
      rfl
    · rw [List.cons_append, List.find?_cons_of_neg _ h, List.find?_cons_of_neg _ h, ih]

theorem bucketFind_eq_none_iff {bs : List Tag} {k : String} :
    bucketFind bs k = none ↔ ∀ t ∈ bs, t.id ≠ k := by
  rw [bucketFind, List.find?_eq_none]
  constructor
  · intro h t ht; have := h t ht; simpa using this
  · intro h t ht; simpa using h t ht

theorem bucketCount_bumpBucket_self (bs : List Tag) (k : String) :
    bucketCount (bumpBucket bs k) k = bucketCount bs k + 1 := by
  rw [bumpBucket]
  by_cases h : bs.any (fun t => t.id = k) = true
  · rw [if_pos h]
    obtain ⟨t, ht, hpt⟩ := List.any_eq_true.mp h
    have hfind : bucketFind bs k ≠ none := by
      intro hnone
      exact absurd (by simpa using hpt) (bucketFind_eq_none_iff.mp hnone t ht)
    obtain ⟨u, hu⟩ := Option.ne_none_iff_exists'.mp hfind
    have hid : u.id = k := by simpa using List.find?_some hu
    rw [bucketCount, bucketFind,
      find?_map_of_id_eq _ (fun t => by by_cases ht' : t.id = k <;> simp [ht']) k bs]
    rw [bucketFind] at hu
    rw [hu, Option.map_some']
    rw [bucketCount, bucketFind, hu]
    simp [hid]
  · rw [if_neg h]
    have hnone : List.find? (fun t => t.id = k) bs = none := by
      rw [List.find?_eq_none]
      intro t ht hp
      have hid : t.id = k := by simpa using hp
      exact h (List.any_eq_true.mpr ⟨t, ht, by simp [hid]⟩)
    rw [bucketCount, bucketCount, bucketFind, bucketFind, find?_append_tag, hnone,
      Option.map_none', Option.getD_none, List.find?_cons_of_pos _ (by simp)]
    rfl

theorem bucketCount_bumpBucket_ne (bs : List Tag) (k k' : String) (h : k' ≠ k) :
    bucketCount (bumpBucket bs k) k' = bucketCount bs k' := by
  rw [bumpBucket]
  by_cases hany : bs.any (fun t => t.id = k) = true
  · rw [if_pos hany, bucketCount, bucketFind,
      find?_map_of_id_eq _ (fun t => by by_cases ht' : t.id = k <;> simp [ht']) k' bs]
    rw [bucketCount, bucketFind]
    cases hf : bs.find? (fun t => t.id = k') with
    | none => rfl
    | some u =>
      have hid : u.id = k' := by simpa using List.find?_some hf
      simp [Option.elim, hid, h]
  · rw [if_neg hany, bucketCount, bucketFind, find?_append_tag]
    cases hf : bs.find? (fun t => t.id = k') with
    | none =>
      rw [Option.map_none', Option.getD_none, List.find?_cons_of_neg _ (by simp [Ne.symm h])]
      rw [bucketCount, bucketFind, hf]
      rfl
    | some u =>
      rw [Option.map_some', Option.getD_some, bucketCount, bucketFind, hf]

theorem bucketIds_bumpBucket (bs : List Tag) (k : String) :
    (bumpBucket bs k).map Tag.id =
      if bs.any (fun t => t.id = k) then bs.map Tag.id else bs.map Tag.id ++ [k] := by
  rw [bumpBucket]
  by_cases h : bs.any (fun t => t.id = k) = true
  · rw [if_pos h, if_pos h, List.map_map]
    apply List.map_congr_left
    intro t _
    by_cases ht : t.id = k <;> simp [ht]
  · rw [if_neg h, if_neg h, List.map_append]
    rfl

theorem nodup_ids_bumpBucket {bs : List Tag} (k : String)
    (h : (bs.map Tag.id).Nodup) : ((bumpBucket bs k).map Tag.id).Nodup := by
  rw [bucketIds_bumpBucket]
  by_cases hany : bs.any (fun t => t.id = k) = true
  · rwa [if_pos hany]
  · rw [if_neg hany]
    refine List.Nodup.append h (List.nodup_singleton k) ?_
    intro x hx hx'
    obtain ⟨t, ht, rfl⟩ := List.mem_map.mp hx
    have hk : t.id = k := by simpa using hx'
    exact hany (List.any_eq_true.mpr ⟨t, ht, by simp [hk]⟩)

theorem bucketCount_bumpAll (excluded : List String) :
    ∀ (kws : List String) (bs : List Tag), kws.Nodup → ∀ k,
      bucketCount (bumpAll excluded bs kws) k =
        bucketCount bs k + (if k ∈ kws ∧ k ∉ excluded then 1 else 0) := by
  intro kws
  induction kws with
  | nil => intro bs _ k; simp [bumpAll]
  | cons a kws ih =>
    intro bs hnodup k
    have hstep : bumpAll excluded bs (a :: kws) =
        bumpAll excluded (if a ∈ excluded then bs else bumpBucket bs a) kws := by
      rw [bumpAll, List.foldl_cons]; rfl
    rw [hstep, ih _ (List.Nodup.of_cons hnodup) k]
    by_cases hka : k = a
    · subst hka
      have hkn : k ∉ kws := (List.nodup_cons.mp hnodup).1
      by_cases hex : k ∈ excluded
      · simp [hex, hkn]
      · rw [if_neg hex, bucketCount_bumpBucket_self]
        simp [hex, hkn]
    · have hmem : k ∈ a :: kws ↔ k ∈ kws := by simp [hka]
      by_cases hex : a ∈ excluded
      · rw [if_pos hex]
        simp only [hmem]
      · rw [if_neg hex, bucketCount_bumpBucket_ne _ _ _ hka]
        simp only [hmem]

theorem nodup_ids_bumpAll (excluded : List String) :
    ∀ (kws : List String) (bs : List Tag), (bs.map Tag.id).Nodup →
      ((bumpAll excluded bs kws).map Tag.id).Nodup := by
  intro kws
  induction kws with
  | nil => intro bs h; simpa [bumpAll] using h
  | cons a kws ih =>
    intro bs h
    have hstep : bumpAll excluded bs (a :: kws) =
        bumpAll excluded (if a ∈ excluded then bs else bumpBucket bs a) kws := by
      rw [bumpAll, List.foldl_cons]; rfl
    rw [hstep]
    apply ih
    by_cases hex : a ∈ excluded
    · rwa [if_pos hex]
    · rw [if_neg hex]
      exact nodup_ids_bumpBucket a h

theorem find?_eq_of_mem_nodup {bs : List Tag} {t : Tag} {k : String}
    (hmem : t ∈ bs) (hid : t.id = k) (hnodup : (bs.map Tag.id).Nodup) :
    bs.find? (fun u => u.id = k) = some t := by
  induction bs with
  | nil => simp at hmem
  | cons u bs ih =>
    rw [List.map_cons, List.nodup_cons] at hnodup
    rcases List.mem_cons.mp hmem with rfl | hmem'
    · exact List.find?_cons_of_pos _ (by simp [hid])
    · by_cases hu : u.id = k
      · exfalso
        apply hnodup.1
        rw [hu, ← hid]
        exact List.mem_map.mpr ⟨t, hmem', rfl⟩
      · rw [List.find?_cons_of_neg _ (by simp [hu])]
        exact ih hmem' hnodup.2

theorem mem_filter_tags {bs : List Tag} {k : String}
    (hnodup : (bs.map Tag.id).Nodup) :
    (∃ t ∈ bs.filter (fun t => decide (MIN_TAG_OCCURRENCE ≤ t.count)), t.id = k) ↔
      MIN_TAG_OCCURRENCE ≤ bucketCount bs k := by
  constructor
  · rintro ⟨t, ht, hid⟩
    obtain ⟨hmem, hcnt⟩ := List.mem_filter.mp ht
    rw [bucketCount, bucketFind, find?_eq_of_mem_nodup hmem hid hnodup]
    simpa using hcnt
  · intro h
    cases hf : bucketFind bs k with
    | none => rw [bucketCount, hf] at h; exact absurd h (by simp [MIN_TAG_OCCURRENCE])
    | some t =>
      have hid : t.id = k := by simpa using List.find?_some hf
      have hmem : t ∈ bs := List.mem_of_find?_eq_some hf
      have hcnt : MIN_TAG_OCCURRENCE ≤ t.count := by
        rw [bucketCount, hf] at h; simpa using h
      exact ⟨t, List.mem_filter.mpr ⟨hmem, by simpa using hcnt⟩, hid⟩

theorem tagFold_spec (excluded : List String) :
    ∀ (ls : List JsLeaf) (acc : List Tag × List (String × List String)),
      (∀ l ∈ ls, l ≠ JsLeaf.nullish) →
      ∃ bs' ix', ls.foldlM (tagStep excluded) acc = Except.ok (bs', ix')
        ∧ (∀ k, bucketCount bs' k =
            bucketCount acc.1 k + (if k ∈ excluded then 0 else kwCount k ls))
        ∧ ((acc.1.map Tag.id).Nodup → (bs'.map Tag.id).Nodup) := by
  intro ls
  induction ls with
  | nil =>
    intro acc _
    exact ⟨acc.1, acc.2, rfl, by intro k; simp [kwCount], fun h => h⟩
  | cons l ls ih =>
    intro acc h
    cases l with
    | nullish => exact absurd rfl (h _ (List.mem_cons_self _ _))
    | obj path dp =>
      have hstep : tagStep excluded acc (.obj path dp) =
          .ok (bumpAll excluded acc.1 (leafKeywords (.obj path dp)),
               setKeywordIndex acc.2 (path.getD "undefined") (leafKeywords (.obj path dp))) := rfl
      obtain ⟨bs', ix', heq, hcount, hnodup⟩ :=
        ih (bumpAll excluded acc.1 (leafKeywords (.obj path dp)),
            setKeywordIndex acc.2 (path.getD "undefined") (leafKeywords (.obj path dp)))
          (fun x hx => h x (List.mem_cons_of_mem _ hx))
      refine ⟨bs', ix', ?_, ?_, ?_⟩
      · rw [List.foldlM_cons, hstep]
        exact heq
      · intro k
        rw [hcount k]
        have hbump := bucketCount_bumpAll excluded (leafKeywords (.obj path dp)) acc.1
          (extractKeywords_nodup _) k
        simp only at hbump
        rw [hbump]
        have hkw : kwCount k (JsLeaf.obj path dp :: ls) =
            (if k ∈ leafKeywords (.obj path dp) then 1 else 0) + kwCount k ls := by
          rw [kwCount, List.countP_cons]
          by_cases hm : k ∈ leafKeywords (.obj path dp) <;> simp [kwCount, hm, Nat.add_comm]
        rw [hkw]
        by_cases hex : k ∈ excluded
        · simp [hex]
        · by_cases hm : k ∈ leafKeywords (.obj path dp) <;> (simp [hex, hm]; (try omega))
      · intro hn
        exact hnodup (nodup_ids_bumpAll excluded _ _ hn)

/-- C3: Tag promotion threshold.  For leaves without nullish entries and
with pairwise-distinct path keys, `buildDerivedTags` succeeds and its
tag set contains a tag with id `k` iff `k` is not excluded and at least
`MIN_TAG_OCCURRENCE` leaves yield keyword `k`; moreover such a tag's
count is exactly the number of leaves yielding `k` (each leaf counts at
most once because per-leaf keyword lists are deduplicated). -/
theorem tag_promotion_threshold :
    ∀ (leaves : List JsLeaf) (excluded : List String) (k : String),
      (∀ l ∈ leaves, l ≠ JsLeaf.nullish) →
      (leaves.map jsLeafKey).Nodup →
      ∃ tags kwIndex,
        buildDerivedTags (some leaves) (some excluded) = Except.ok (tags, kwIndex)
          ∧ ((∃ t ∈ tags, t.id = k) ↔ (k ∉ excluded ∧ MIN_TAG_OCCURRENCE ≤ kwCount k leaves))
          ∧ (∀ t ∈ tags, t.id = k → t.count = kwCount k leaves) := by
  intro leaves excluded k hnn _hdist
  obtain ⟨bs', ix', heq, hcount, hnodup⟩ := tagFold_spec excluded leaves ([], []) hnn
  have hnodup' : (bs'.map Tag.id).Nodup := hnodup (by simp)
  have hcount0 : ∀ k, bucketCount bs' k = if k ∈ excluded then 0 else kwCount k leaves := by
    intro k'
    have h := hcount k'
    have hz : bucketCount ([], ([] : List (String × List String))).1 k' = 0 := rfl
    rw [hz] at h
    simpa using h
  refine ⟨bs'.filter (fun t => decide (MIN_TAG_OCCURRENCE ≤ t.count)), ix', ?_, ?_, ?_⟩
  · rw [buildDerivedTags]
    show (do
        let r ← leaves.foldlM (tagStep excluded) ([], [])
        return (r.1.filter (fun t => MIN_TAG_OCCURRENCE ≤ t.count), r.2) : Except String _) = _
    rw [heq]
    rfl
  · rw [mem_filter_tags hnodup', hcount0 k]
    by_cases hex : k ∈ excluded
    · rw [if_pos hex]
      simp only [hex, not_true_eq_false, false_and, iff_false, MIN_TAG_OCCURRENCE]
      omega
    · rw [if_neg hex]
      simp [hex]
  · intro t ht hid
    obtain ⟨hmem, hcnt⟩ := List.mem_filter.mp ht
    have hcnt' : MIN_TAG_OCCURRENCE ≤ t.count := by simpa using hcnt
    have hfind := find?_eq_of_mem_nodup hmem hid hnodup'
    have hbc : bucketCount bs' k = t.count := by
      rw [bucketCount, bucketFind, hfind]
      rfl
    rw [hcount0 k] at hbc
    rw [MIN_TAG_OCCURRENCE] at hcnt'
    by_cases hex : k ∈ excluded
    · rw [if_pos hex] at hbc
      omega
    · rw [if_neg hex] at hbc
      omega

/-- Witness for C3 at the spec's Beach/Party/Mountain example. -/
theorem tag_promotion_threshold_witness :
    ∃ tags kwIndex,
      buildDerivedTags
          (some [JsLeaf.obj (some "/r/a") (some "Beach Trip"),
                 JsLeaf.obj (some "/r/b") (some "Beach Party"),
                 JsLeaf.obj (some "/r/c") (some "Mountain Trip")]) (some []) =
        Except.ok (tags, kwIndex)
        ∧ ((∃ t ∈ tags, t.id = "trip") ↔ ("trip" ∉ ([] : List String)
            ∧ MIN_TAG_OCCURRENCE ≤ kwCount "trip"
                [JsLeaf.obj (some "/r/a") (some "Beach Trip"),
                 JsLeaf.obj (some "/r/b") (some "Beach Party"),
                 JsLeaf.obj (some "/r/c") (some "Mountain Trip")]))
        ∧ (∀ t ∈ tags, t.id = "trip" → t.count = kwCount "trip"
                [JsLeaf.obj (some "/r/a") (some "Beach Trip"),
                 JsLeaf.obj (some "/r/b") (some "Beach Party"),
                 JsLeaf.obj (some "/r/c") (some "Mountain Trip")]) :=
  tag_promotion_threshold
    [JsLeaf.obj (some "/r/a") (some "Beach Trip"),
     JsLeaf.obj (some "/r/b") (some "Beach Party"),
     JsLeaf.obj (some "/r/c") (some "Mountain Trip")] [] "trip"
    (by decide) (by decide)

/-- C4 counterexample: `buildDerivedTags` is not exception-free for
every input shape — an array containing a nullish element makes the
property read `keywordIndex[leaf.path]` throw a TypeError. -/
theorem aggregator_totality_counterexample :
    buildDerivedTags (some [JsLeaf.nullish]) none = Except.error nullishLeafError := rfl

/-- C4 amended: `buildDerivedTags` returns without throwing for a
non-array `leaves` value and for every array of non-nullish leaf
objects (in particular objects missing `path` or `displayPath`); a leaf
missing `displayPath` degrades to the empty name and hence the empty
keyword set.  Only a nullish array element throws. -/
theorem aggregator_totality_amended :
    (∀ excludedTags, ∃ r, buildDerivedTags none excludedTags = Except.ok r)
    ∧ (∀ (leaves : List JsLeaf) (excludedTags : Option (List String)),
        (∀ l ∈ leaves, l ≠ JsLeaf.nullish) →
        ∃ r, buildDerivedTags (some leaves) excludedTags = Except.ok r)
    ∧ (∀ path : Option String, getLeafName (JsLeaf.obj path none) = ""
        ∧ extractKeywords (getLeafName (JsLeaf.obj path none)) = []) := by
  refine ⟨fun excludedTags => ⟨([], []), rfl⟩, ?_, fun path => ⟨rfl, rfl⟩⟩
  intro leaves excludedTags hnn
  obtain ⟨bs', ix', heq, _, _⟩ := tagFold_spec (excludedTags.getD []) leaves ([], []) hnn
  refine ⟨(bs'.filter (fun t => decide (MIN_TAG_OCCURRENCE ≤ t.count)), ix'), ?_⟩
  rw [buildDerivedTags]
  show (do
      let r ← leaves.foldlM (tagStep (excludedTags.getD [])) ([], [])
      return (r.1.filter (fun t => MIN_TAG_OCCURRENCE ≤ t.count), r.2) : Except String _) = _
  rw [heq]
  rfl

/-- Witness for C4's amended claim: leaves missing both properties are fine. -/
theorem aggregator_totality_amended_witness :
    ∃ r, buildDerivedTags (some [JsLeaf.obj none none]) (some ["x"]) = Except.ok r :=
  aggregator_totality_amended.2.1 [JsLeaf.obj none none] (some ["x"]) (by decide)

/-- C9: Page fetcher contract.  For every fixed media listing and every
pair of option values: the reported `total` is the listing length;
`hasMore` holds iff `nextOffset < total`; the returned files are exactly
the listing's contiguous slice from `offset` to `nextOffset` (never an
item outside the range, which is within bounds); a negative or
non-finite offset is normalized to 0; a non-finite or non-positive
limit means "all remaining items"; and the call is deterministic. -/
theorem listMediaFiles_contract {α : Type} (mediaFiles : List α)
    (optOffset optLimit : JsNumber) :
    (listMediaFiles mediaFiles optOffset optLimit).total = mediaFiles.length
    ∧ ((listMediaFiles mediaFiles optOffset optLimit).hasMore = true ↔
        (listMediaFiles mediaFiles optOffset optLimit).nextOffset < mediaFiles.length)
    ∧ (listMediaFiles mediaFiles optOffset optLimit).offset ≤
        (listMediaFiles mediaFiles optOffset optLimit).nextOffset
    ∧ (listMediaFiles mediaFiles optOffset optLimit).nextOffset ≤ mediaFiles.length
    ∧ (listMediaFiles mediaFiles optOffset optLimit).files =
        (mediaFiles.drop (listMediaFiles mediaFiles optOffset optLimit).offset).take
          ((listMediaFiles mediaFiles optOffset optLimit).nextOffset -
            (listMediaFiles mediaFiles optOffset optLimit).offset)
    ∧ ((optOffset = .nan ∨ optOffset = .posInf ∨ optOffset = .negInf
        ∨ ∃ q, optOffset = .fin q ∧ q < 0) →
        (listMediaFiles mediaFiles optOffset optLimit).offset = 0)
    ∧ ((optLimit = .nan ∨ optLimit = .posInf ∨ optLimit = .negInf
        ∨ ∃ q, optLimit = .fin q ∧ q ≤ 0) →
        (listMediaFiles mediaFiles optOffset optLimit).nextOffset = mediaFiles.length
        ∧ (listMediaFiles mediaFiles optOffset optLimit).files =
            mediaFiles.drop (listMediaFiles mediaFiles optOffset optLimit).offset)
    ∧ listMediaFiles mediaFiles optOffset optLimit =
        listMediaFiles mediaFiles optOffset optLimit := by
  refine ⟨rfl, ?_, ?_, ?_, rfl, ?_, ?_, rfl⟩
  · simp only [listMediaFiles]
    exact decide_eq_true_iff
  · show min (normalizeOffset optOffset) mediaFiles.length ≤
      (listMediaFiles mediaFiles optOffset optLimit).nextOffset
    show _ ≤ (if 0 < normalizeLimit optLimit ((mediaFiles.length : Int) -
        (normalizeOffset optOffset : Int)) then
      min (min (normalizeOffset optOffset) mediaFiles.length +
        normalizeLimit optLimit ((mediaFiles.length : Int) -
          (normalizeOffset optOffset : Int))) mediaFiles.length else mediaFiles.length)
    split
    · omega
    · omega
  · show (if 0 < normalizeLimit optLimit ((mediaFiles.length : Int) -
        (normalizeOffset optOffset : Int)) then
      min (min (normalizeOffset optOffset) mediaFiles.length +
        normalizeLimit optLimit ((mediaFiles.length : Int) -
          (normalizeOffset optOffset : Int))) mediaFiles.length else mediaFiles.length)
      ≤ mediaFiles.length
    split
    · omega
    · omega
  · rintro (rfl | rfl | rfl | ⟨q, rfl, hq⟩)
    · show min 0 mediaFiles.length = 0; omega
    · show min 0 mediaFiles.length = 0; omega
    · show min 0 mediaFiles.length = 0; omega
    · show min (normalizeOffset (.fin q)) mediaFiles.length = 0
      rw [normalizeOffset, if_pos hq]
      omega
  · intro h
    have hlim : normalizeLimit optLimit ((mediaFiles.length : Int) -
        (normalizeOffset optOffset : Int)) =
        (max ((mediaFiles.length : Int) - (normalizeOffset optOffset : Int)) 0).toNat := by
      rcases h with rfl | rfl | rfl | ⟨q, rfl, hq⟩
      · rfl
      · rfl
      · rfl
      · rw [normalizeLimit, if_pos hq]
    have hstop : (listMediaFiles mediaFiles optOffset optLimit).nextOffset =
        mediaFiles.length := by
      show (if 0 < normalizeLimit optLimit ((mediaFiles.length : Int) -
          (normalizeOffset optOffset : Int)) then
        min (min (normalizeOffset optOffset) mediaFiles.length +
          normalizeLimit optLimit ((mediaFiles.length : Int) -
            (normalizeOffset optOffset : Int))) mediaFiles.length
        else mediaFiles.length) = mediaFiles.length
      rw [hlim]
      split
      · omega
      · rfl
    refine ⟨hstop, ?_⟩
    have hoffeq : (listMediaFiles mediaFiles optOffset optLimit).offset =
        min (normalizeOffset optOffset) mediaFiles.length := rfl
    have hfiles : (listMediaFiles mediaFiles optOffset optLimit).files =
        jsSlice mediaFiles (min (normalizeOffset optOffset) mediaFiles.length)
          (listMediaFiles mediaFiles optOffset optLimit).nextOffset := rfl
    rw [hfiles, hstop, hoffeq, jsSlice]
    apply List.take_of_length_le
    rw [List.length_drop]

/-! ## Lemmas about the session store -/

theorem find?_map_key {α κ : Type} [DecidableEq κ] (key : α → κ) (g : α → α)
    (hg : ∀ x, key (g x) = key x) (k : κ) :
    ∀ l : List α, (l.map g).find? (fun x => key x = k) =
      (l.find? (fun x => key x = k)).map g := by
  intro l
  induction l with
  | nil => rfl
  | cons x l ih =>
    by_cases h : key x = k
    · rw [List.map_cons, List.find?_cons_of_pos _ (by simp [hg, h]),
        List.find?_cons_of_pos _ (by simp [h]), Option.map_some']
    · rw [List.map_cons, List.find?_cons_of_neg _ (by simp [hg, h]),
        List.find?_cons_of_neg _ (by simp [h]), ih]

theorem lookupSid_updateSid_self (l : List (Nat × Session)) (sid : Nat) (f : Session → Session) :
    lookupSid (updateSid l sid f) sid = (lookupSid l sid).map f := by
  rw [lookupSid, updateSid, lookupSid,
    find?_map_key Prod.fst (fun p => if p.1 = sid then (p.1, f p.2) else p)
      (fun p => by by_cases h : p.1 = sid <;> simp [h]) sid l]
  cases hf : l.find? (fun p => p.1 = sid) with
  | none => rfl
  | some p =>
    have hp : p.1 = sid := by simpa using List.find?_some hf
    simp [hp]

theorem lookupSid_updateSid_ne (l : List (Nat × Session)) (sid sid' : Nat)
    (f : Session → Session) (h : sid' ≠ sid) :
    lookupSid (updateSid l sid f) sid' = lookupSid l sid' := by
  rw [lookupSid, updateSid, lookupSid,
    find?_map_key Prod.fst (fun p => if p.1 = sid then (p.1, f p.2) else p)
      (fun p => by by_cases hq : p.1 = sid <;> simp [hq]) sid' l]
  cases hf : l.find? (fun p => p.1 = sid') with
  | none => rfl
  | some p =>
    have hp : p.1 = sid' := by simpa using List.find?_some hf
    simp [hp, h]

theorem keys_updateSid (l : List (Nat × Session)) (sid : Nat) (f : Session → Session) :
    (updateSid l sid f).map Prod.fst = l.map Prod.fst := by
  rw [updateSid, List.map_map]
  apply List.map_congr_left
  intro p _
  by_cases h : p.1 = sid <;> simp [h]

theorem lookupSid_cons_self (k : Nat) (s : Session) (l : List (Nat × Session)) :
    lookupSid ((k, s) :: l) k = some s := by
  rw [lookupSid, List.find?_cons_of_pos _ (by simp)]
  rfl

theorem lookupSid_cons_ne (k sid : Nat) (s : Session) (l : List (Nat × Session))
    (h : sid ≠ k) : lookupSid ((k, s) :: l) sid = lookupSid l sid := by
  rw [lookupSid, List.find?_cons_of_neg _ (by simp [Ne.symm h]), lookupSid]

theorem mem_keys_of_lookupSid {l : List (Nat × Session)} {sid : Nat} {s : Session}
    (h : lookupSid l sid = some s) : sid ∈ l.map Prod.fst := by
  rw [lookupSid] at h
  cases hf : l.find? (fun p => p.1 = sid) with
  | none => rw [hf] at h; cases h
  | some p =>
    have hp : p.1 = sid := by simpa using List.find?_some hf
    exact hp ▸ List.mem_map.mpr ⟨p, List.mem_of_find?_eq_some hf, rfl⟩

theorem getSession_updateSession_self (st : RendererState) (sid : Nat) (f : Session → Session) :
    getSession (updateSession st sid f) sid = (getSession st sid).map f :=
  lookupSid_updateSid_self st.sessions sid f

theorem getSession_updateSession_ne (st : RendererState) (sid sid' : Nat)
    (f : Session → Session) (h : sid' ≠ sid) :
    getSession (updateSession st sid f) sid' = getSession st sid' :=
  lookupSid_updateSid_ne st.sessions sid sid' f h

/-! ## The well-formedness invariant of reachable renderer states -/

/-- Structural invariants of the renderer state: session ids and promise
ids are below their allocation counters, request ids are below the
session sequence, every in-flight fetch targets a stored session, all
promise ids (fetches and render jobs) are distinct, and the session a
fetch or render job belongs to holds exactly that promise in
`loadingPromise`. -/
structure WF (st : RendererState) : Prop where
  sids_lt : ∀ p ∈ st.sessions, p.1 < st.nextSid
  req_le : ∀ p ∈ st.sessions, p.2.requestId ≤ st.mediaSessionSequence
  fetch_sid : ∀ f ∈ st.inFlight, f.sid ∈ st.sessions.map Prod.fst
  job_sid : ∀ j ∈ st.renderJobs, j.sid ∈ st.sessions.map Prod.fst
  fid_lt : ∀ f ∈ st.inFlight, f.fid < st.nextPid
  jobpid_lt : ∀ j ∈ st.renderJobs, j.pid < st.nextPid
  pids_nodup : (st.inFlight.map Fetch.fid ++ st.renderJobs.map RenderJob.pid).Nodup
  fetch_lp : ∀ f ∈ st.inFlight, ∀ s, getSession st f.sid = some s →
    s.loadingPromise = some f.fid
  job_lp : ∀ j ∈ st.renderJobs, ∀ s, getSession st j.sid = some s →
    s.loadingPromise = some j.pid

theorem WF.congr {st st' : RendererState} (h : WF st)
    (hs : st'.sessions = st.sessions) (hn : st'.nextSid = st.nextSid)
    (hq : st'.mediaSessionSequence = st.mediaSessionSequence)
    (hf : st'.inFlight = st.inFlight) (hj : st'.renderJobs = st.renderJobs)
    (hp : st'.nextPid = st.nextPid) : WF st' := by
  constructor
  · rw [hs, hn]; exact h.sids_lt
  · rw [hs, hq]; exact h.req_le
  · rw [hf, hs]; exact h.fetch_sid
  · rw [hj, hs]; exact h.job_sid
  · rw [hf, hp]; exact h.fid_lt
  · rw [hj, hp]; exact h.jobpid_lt
  · rw [hf, hj]; exact h.pids_nodup
  · rw [hf]
    intro f hfm s hsess
    rw [getSession, hs] at hsess
    exact h.fetch_lp f hfm s hsess
  · rw [hj]
    intro j hjm s hsess
    rw [getSession, hs] at hsess
    exact h.job_lp j hjm s hsess

theorem WF.updateKeep {st : RendererState} (h : WF st) (sid : Nat) (f : Session → Session)
    (hlp : ∀ s, (f s).loadingPromise = s.loadingPromise)
    (hreq : ∀ s, (f s).requestId = s.requestId) : WF (updateSession st sid f) := by
  constructor
  · intro p hp
    obtain ⟨q, hq, rfl⟩ := List.mem_map.mp hp
    by_cases hqs : q.1 = sid
    · simpa [hqs] using h.sids_lt q hq
    · simpa [hqs] using h.sids_lt q hq
  · intro p hp
    obtain ⟨q, hq, rfl⟩ := List.mem_map.mp hp
    by_cases hqs : q.1 = sid
    · simpa [hqs, hreq] using h.req_le q hq
    · simpa [hqs] using h.req_le q hq
  · intro g hg
    show g.sid ∈ (updateSid st.sessions sid f).map Prod.fst
    rw [keys_updateSid]
    exact h.fetch_sid g hg
  · intro j hj
    show j.sid ∈ (updateSid st.sessions sid f).map Prod.fst
    rw [keys_updateSid]
    exact h.job_sid j hj
  · exact h.fid_lt
  · exact h.jobpid_lt
  · exact h.pids_nodup
  · intro g hg s hsess
    by_cases hgs : g.sid = sid
    · rw [hgs, getSession_updateSession_self] at hsess
      obtain ⟨s0, hs0, rfl⟩ := Option.map_eq_some'.mp hsess
      rw [hlp]
      exact h.fetch_lp g hg s0 (hgs ▸ hs0)
    · rw [getSession_updateSession_ne _ _ _ _ hgs] at hsess
      exact h.fetch_lp g hg s hsess
  · intro j hj s hsess
    by_cases hjs : j.sid = sid
    · rw [hjs, getSession_updateSession_self] at hsess
      obtain ⟨s0, hs0, rfl⟩ := Option.map_eq_some'.mp hsess
      rw [hlp]
      exact h.job_lp j hj s0 (hjs ▸ hs0)
    · rw [getSession_updateSession_ne _ _ _ _ hjs] at hsess
      exact h.job_lp j hj s hsess

theorem fetchNext_state_none {st : RendererState} {sid : Nat}
    (hs : getSession st sid = none) : fetchNextMediaChunk st sid = (st, none) := by
  simp only [fetchNextMediaChunk, hs]

theorem fetchNext_of_loading {st : RendererState} {sid : Nat} {s : Session} {p : Nat}
    (hs : getSession st sid = some s) (hp : s.loadingPromise = some p) :
    fetchNextMediaChunk st sid = (st, some p) := by
  simp only [fetchNextMediaChunk, hs, hp]

theorem fetchNext_noapi {st : RendererState} {sid : Nat} {s : Session}
    (hs : getSession st sid = some s) (hlp : s.loadingPromise = none)
    (hapi : st.hasFetchApi = false) : fetchNextMediaChunk st sid = (st, none) := by
  simp only [fetchNextMediaChunk, hs, hlp, hapi, Bool.not_false, if_true]

theorem fetchNext_nopath {st : RendererState} {sid : Nat} {s : Session}
    (hs : getSession st sid = some s) (hlp : s.loadingPromise = none)
    (hapi : st.hasFetchApi = true) (hpath : s.leafPath = none) :
    fetchNextMediaChunk st sid = (st, none) := by
  simp only [fetchNextMediaChunk, hs, hlp, hapi, hpath, Bool.not_true, if_false]
  split <;> rfl

theorem fetchNext_issue {st : RendererState} {sid : Nat} {s : Session} {lp : String}
    (hs : getSession st sid = some s) (hlp : s.loadingPromise = none)
    (hapi : st.hasFetchApi = true) (hpath : s.leafPath = some lp) :
    fetchNextMediaChunk st sid =
      (updateSession
        { st with inFlight := st.inFlight ++ [{ fid := st.nextPid, sid := sid, requestId := s.requestId, offset := s.items.length, leafPath := lp }], nextPid := st.nextPid + 1 }
        sid (fun s0 => { s0 with loadingPromise := some st.nextPid }),
       some st.nextPid) := by
  simp only [fetchNextMediaChunk, hs, hlp, hapi, hpath, Bool.not_true, if_false]
  rfl

theorem WF.fetchNext {st : RendererState} (h : WF st) (sid : Nat) :
    WF (fetchNextMediaChunk st sid).1 := by
  cases hg : getSession st sid with
  | none => rw [fetchNext_state_none hg]; exact h
  | some s =>
    cases hlpc : s.loadingPromise with
    | some p => rw [fetchNext_of_loading hg hlpc]; exact h
    | none =>
      cases hapi : st.hasFetchApi with
      | false => rw [fetchNext_noapi hg hlpc hapi]; exact h
      | true =>
        cases hpath : s.leafPath with
        | none => rw [fetchNext_nopath hg hlpc hapi hpath]; exact h
        | some lp =>
          rw [fetchNext_issue hg hlpc hapi hpath]
          constructor
          · intro p hp
            obtain ⟨q, hq, rfl⟩ := List.mem_map.mp hp
            by_cases hqs : q.1 = sid
            · simpa [hqs] using h.sids_lt q hq
            · simpa [hqs] using h.sids_lt q hq
          · intro p hp
            obtain ⟨q, hq, rfl⟩ := List.mem_map.mp hp
            by_cases hqs : q.1 = sid
            · simpa [hqs] using h.req_le q hq
            · simpa [hqs] using h.req_le q hq
          · intro g hgm
            show g.sid ∈ (updateSid st.sessions sid
              (fun s0 => { s0 with loadingPromise := some st.nextPid })).map Prod.fst
            rw [keys_updateSid]
            rcases List.mem_append.mp hgm with hold | hnew
            · exact h.fetch_sid g hold
            · rw [List.mem_singleton.mp hnew]
              exact mem_keys_of_lookupSid hg
          · intro j hjm
            show j.sid ∈ (updateSid st.sessions sid
              (fun s0 => { s0 with loadingPromise := some st.nextPid })).map Prod.fst
            rw [keys_updateSid]
            exact h.job_sid j hjm
          · intro g hgm
            rcases List.mem_append.mp hgm with hold | hnew
            · exact Nat.lt_succ_of_lt (h.fid_lt g hold)
            · rw [List.mem_singleton.mp hnew]
              exact Nat.lt_succ_self _
          · intro j hj
            exact Nat.lt_succ_of_lt (h.jobpid_lt j hj)
          · show (((st.inFlight ++ [_]).map Fetch.fid) ++
              st.renderJobs.map RenderJob.pid).Nodup
            rw [List.map_append, List.append_assoc]
            show (st.inFlight.map Fetch.fid ++
              (st.nextPid :: st.renderJobs.map RenderJob.pid)).Nodup
            rw [List.nodup_middle]
            refine List.nodup_cons.mpr ⟨?_, h.pids_nodup⟩
            intro hmem
            rcases List.mem_append.mp hmem with hm | hm
            · obtain ⟨g, hg2, he⟩ := List.mem_map.mp hm
              have := h.fid_lt g hg2
              omega
            · obtain ⟨j, hj2, he⟩ := List.mem_map.mp hm
              have := h.jobpid_lt j hj2
              omega
          · intro g hgm s' hsess
            rcases List.mem_append.mp hgm with hold | hnew
            · by_cases hgs : g.sid = sid
              · exfalso
                have := h.fetch_lp g hold s (hgs ▸ hg)
                rw [hlpc] at this
                cases this
              · rw [getSession_updateSession_ne _ _ _ _ hgs] at hsess
                exact h.fetch_lp g hold s' hsess
            · rw [List.mem_singleton.mp hnew] at hsess ⊢
              rw [getSession_updateSession_self] at hsess
              have hsess2 : (getSession st sid).map
                  (fun s0 => { s0 with loadingPromise := some st.nextPid }) = some s' := hsess
              rw [hg, Option.map_some'] at hsess2
              rw [← Option.some.inj hsess2]
          · intro j hj s' hsess
            by_cases hjs : j.sid = sid
            · exfalso
              have := h.job_lp j hj s (hjs ▸ hg)
              rw [hlpc] at this
              cases this
            · rw [getSession_updateSession_ne _ _ _ _ hjs] at hsess
              exact h.job_lp j hj s' hsess

/-- A single case split for `fetchNextMediaChunk`: it either leaves the
state unchanged or issues exactly one fresh fetch. -/
theorem fetchNext_cases (st : RendererState) (sid : Nat) :
    (fetchNextMediaChunk st sid).1 = st ∨
    ∃ s lp, getSession st sid = some s ∧ s.loadingPromise = none ∧
      st.hasFetchApi = true ∧ s.leafPath = some lp ∧
      (fetchNextMediaChunk st sid).1 =
        updateSession
          { st with inFlight := st.inFlight ++ [{ fid := st.nextPid, sid := sid, requestId := s.requestId, offset := s.items.length, leafPath := lp }], nextPid := st.nextPid + 1 }
          sid (fun s0 => { s0 with loadingPromise := some st.nextPid }) := by
  cases hg : getSession st sid with
  | none => exact Or.inl (by rw [fetchNext_state_none hg])
  | some s =>
    cases hlpc : s.loadingPromise with
    | some p => exact Or.inl (by rw [fetchNext_of_loading hg hlpc])
    | none =>
      cases hapi : st.hasFetchApi with
      | false => exact Or.inl (by rw [fetchNext_noapi hg hlpc hapi])
      | true =>
        cases hpath : s.leafPath with
        | none => exact Or.inl (by rw [fetchNext_nopath hg hlpc hapi hpath])
        | some lp =>
          right
          refine ⟨s, lp, ?_, hlpc, ?_, hpath, ?_⟩
          · rfl
          · rfl
          · rw [fetchNext_issue hg hlpc hapi hpath, hapi]

/-- The state components that the in-event helpers (viewer updates,
progress updates, session mutations, fetch issuance) never change, plus
the guarantee that any new in-flight fetch has a fresh promise id. -/
def StepFrame (st st' : RendererState) : Prop :=
  st'.sessions.map Prod.fst = st.sessions.map Prod.fst ∧
  st'.currentSid = st.currentSid ∧
  st'.nextSid = st.nextSid ∧
  st'.mediaSessionSequence = st.mediaSessionSequence ∧
  st'.renderJobs = st.renderJobs ∧
  st'.renderAbort = st.renderAbort ∧
  st'.abortedCids = st.abortedCids ∧
  st'.nextCid = st.nextCid ∧
  st'.hasFetchApi = st.hasFetchApi ∧
  st.nextPid ≤ st'.nextPid ∧
  (∀ g ∈ st'.inFlight, g ∈ st.inFlight ∨ st.nextPid ≤ g.fid)

theorem stepFrame_refl (st : RendererState) : StepFrame st st :=
  ⟨rfl, rfl, rfl, rfl, rfl, rfl, rfl, rfl, rfl, Nat.le_refl _, fun g hg => Or.inl hg⟩

theorem StepFrame.trans {a b c : RendererState} (h1 : StepFrame a b) (h2 : StepFrame b c) :
    StepFrame a c := by
  obtain ⟨k1, c1, n1, q1, j1, r1, a1, d1, f1, p1, g1⟩ := h1
  obtain ⟨k2, c2, n2, q2, j2, r2, a2, d2, f2, p2, g2⟩ := h2
  refine ⟨k2.trans k1, c2.trans c1, n2.trans n1, q2.trans q1, j2.trans j1, r2.trans r1,
    a2.trans a1, d2.trans d1, f2.trans f1, le_trans p1 p2, ?_⟩
  intro g hg
  rcases g2 g hg with hb | hfid
  · exact g1 g hb
  · exact Or.inr (le_trans p1 hfid)

theorem stepFrame_updateSession (st : RendererState) (sid : Nat) (f : Session → Session) :
    StepFrame st (updateSession st sid f) :=
  ⟨keys_updateSid _ _ _, rfl, rfl, rfl, rfl, rfl, rfl, rfl, rfl, Nat.le_refl _,
    fun g hg => Or.inl hg⟩

theorem stepFrame_setViewer (st : RendererState) (v : ViewerState) :
    StepFrame st { st with viewer := v } :=
  ⟨rfl, rfl, rfl, rfl, rfl, rfl, rfl, rfl, rfl, Nat.le_refl _, fun g hg => Or.inl hg⟩

theorem stepFrame_setProgress (st : RendererState) (p : ProgressState) :
    StepFrame st { st with progress := p } :=
  ⟨rfl, rfl, rfl, rfl, rfl, rfl, rfl, rfl, rfl, Nat.le_refl _, fun g hg => Or.inl hg⟩

theorem stepFrame_fetchNext (st : RendererState) (sid : Nat) :
    StepFrame st (fetchNextMediaChunk st sid).1 := by
  rcases fetchNext_cases st sid with heq | ⟨s, lp, _, _, _, _, heq⟩
  · rw [heq]; exact stepFrame_refl st
  · rw [heq]
    refine ⟨?_, rfl, rfl, rfl, rfl, rfl, rfl, rfl, rfl, Nat.le_succ _, ?_⟩
    · simp only [updateSession, keys_updateSid]
    · intro g hg
      rcases List.mem_append.mp hg with hold | hnew
      · exact Or.inl hold
      · rw [List.mem_singleton.mp hnew]
        exact Or.inr (Nat.le_refl _)

theorem WF.setViewer {st : RendererState} (h : WF st) (v : ViewerState) :
    WF { st with viewer := v } :=
  h.congr rfl rfl rfl rfl rfl rfl

theorem WF.setProgress {st : RendererState} (h : WF st) (p : ProgressState) :
    WF { st with progress := p } :=
  h.congr rfl rfl rfl rfl rfl rfl

theorem WF.ensureActive {st : RendererState} (h : WF st) (r : Nat) :
    WF (ensureMediaViewerActive st r) :=
  h.congr rfl rfl rfl rfl rfl rfl

theorem WF.showLoading {st : RendererState} (h : WF st) (i t : Nat) :
    WF (showMediaViewerLoadingState st i t) :=
  h.congr rfl rfl rfl rfl rfl rfl

theorem stepFrame_showLoading (st : RendererState) (i t : Nat) :
    StepFrame st (showMediaViewerLoadingState st i t) :=
  ⟨rfl, rfl, rfl, rfl, rfl, rfl, rfl, rfl, rfl, Nat.le_refl _, fun g hg => Or.inl hg⟩

theorem WF.showItem {st : RendererState} (h : WF st) (idx : Int) :
    WF (showMediaViewerItem st idx) := by
  simp only [showMediaViewerItem]
  split
  · exact h
  · split
    · exact h
    · split
      · exact WF.fetchNext
          ((h.updateKeep _ _ (by intro s0; rfl) (by intro s0; rfl)).showLoading _ _) _
      · split
        · exact h
        · split
          · exact WF.fetchNext
              (WF.setViewer ((h.ensureActive _).updateKeep _ _
                (by intro s0; rfl) (by intro s0; rfl)) _) _
          · exact WF.setViewer ((h.ensureActive _).updateKeep _ _
              (by intro s0; rfl) (by intro s0; rfl)) _

theorem stepFrame_showItem (st : RendererState) (idx : Int) :
    StepFrame st (showMediaViewerItem st idx) := by
  simp only [showMediaViewerItem]
  split
  · exact stepFrame_refl st
  · split
    · exact stepFrame_refl st
    · split
      · exact ((stepFrame_updateSession st _ _).trans (stepFrame_showLoading _ _ _)).trans
          (stepFrame_fetchNext _ _)
      · split
        · exact stepFrame_refl st
        · split
          · exact (((stepFrame_setViewer st _).trans (stepFrame_updateSession _ _ _)).trans
              (stepFrame_setViewer _ _)).trans (stepFrame_fetchNext _ _)
          · exact ((stepFrame_setViewer st _).trans (stepFrame_updateSession _ _ _)).trans
              (stepFrame_setViewer _ _)

theorem WF.handleAppended {st : RendererState} (h : WF st) (sid : Nat) :
    WF (handleMediaViewerItemsAppended st sid) := by
  simp only [handleMediaViewerItemsAppended]
  split
  · exact h
  · split
    · split
      · exact (h.updateKeep _ _ (by intro s0; rfl) (by intro s0; rfl)).showItem _
      · exact h
    · exact h

theorem stepFrame_handleAppended (st : RendererState) (sid : Nat) :
    StepFrame st (handleMediaViewerItemsAppended st sid) := by
  simp only [handleMediaViewerItemsAppended]
  split
  · exact stepFrame_refl st
  · split
    · split
      · exact (stepFrame_updateSession st _ _).trans (stepFrame_showItem _ _)
      · exact stepFrame_refl st
    · exact stepFrame_refl st

theorem WF.renderChunk {st : RendererState} (h : WF st) (sid : Nat)
    (chunk : List MediaFile) (cid? : Option Nat) :
    WF (renderMediaChunk st sid chunk cid?) := by
  simp only [renderMediaChunk]
  split
  · exact h
  · exact ((h.updateKeep _ _ (by intro s0; rfl) (by intro s0; rfl)).setProgress _).handleAppended _

theorem stepFrame_renderChunk (st : RendererState) (sid : Nat)
    (chunk : List MediaFile) (cid? : Option Nat) :
    StepFrame st (renderMediaChunk st sid chunk cid?) := by
  simp only [renderMediaChunk]
  split
  · exact stepFrame_refl st
  · exact ((stepFrame_updateSession st _ _).trans (stepFrame_setProgress _ _)).trans
      (stepFrame_handleAppended _ _)

theorem WF.chunkTotals {st : RendererState} (h : WF st) (sid : Nat) (s : Session)
    (rep : Option Nat) : WF (applyChunkTotals st sid s rep) := by
  cases rep with
  | none => exact h
  | some tc =>
    simp only [applyChunkTotals]
    split
    · exact (h.updateKeep _ _ (by intro s0; rfl) (by intro s0; rfl)).setProgress _
    · exact h.setProgress _

theorem stepFrame_applyChunkTotals (st : RendererState) (sid : Nat) (s : Session)
    (rep : Option Nat) : StepFrame st (applyChunkTotals st sid s rep) := by
  cases rep with
  | none => exact stepFrame_refl st
  | some tc =>
    simp only [applyChunkTotals]
    split
    · exact (stepFrame_updateSession st _ _).trans (stepFrame_setProgress _ _)
    · exact stepFrame_setProgress _ _

theorem WF.applyChunk {st : RendererState} (h : WF st) (sid : Nat) (result : ChunkResult) :
    WF (applyMediaChunk st sid result) := by
  simp only [applyMediaChunk]
  split
  · exact h
  · split
    · exact h.chunkTotals _ _ _
    · split
      · exact h.chunkTotals _ _ _
      · exact (h.chunkTotals _ _ _).renderChunk _ _ _

theorem stepFrame_applyChunk (st : RendererState) (sid : Nat) (result : ChunkResult) :
    StepFrame st (applyMediaChunk st sid result) := by
  simp only [applyMediaChunk]
  split
  · exact stepFrame_refl st
  · split
    · exact stepFrame_applyChunkTotals st _ _ _
    · split
      · exact stepFrame_applyChunkTotals st _ _ _
      · exact (stepFrame_applyChunkTotals st _ _ _).trans (stepFrame_renderChunk _ _ _ _)

theorem eq_of_nodup_map {α β : Type} {f : α → β} {l : List α}
    (h : (l.map f).Nodup) {a b : α} (ha : a ∈ l) (hb : b ∈ l) (hf : f a = f b) : a = b := by
  induction l with
  | nil => simp at ha
  | cons x l ih =>
    rw [List.map_cons, List.nodup_cons] at h
    rcases List.mem_cons.mp ha with rfl | ha' <;> rcases List.mem_cons.mp hb with rfl | hb'
    · rfl
    · exact absurd (hf ▸ List.mem_map.mpr ⟨b, hb', rfl⟩) h.1
    · exact absurd (hf ▸ List.mem_map.mpr ⟨a, ha', rfl⟩) h.1
    · exact ih h.2 ha' hb'

theorem WF.pidsDisjoint {st : RendererState} (h : WF st) {g : Fetch} {j : RenderJob}
    (hg : g ∈ st.inFlight) (hj : j ∈ st.renderJobs) : g.fid ≠ j.pid := by
  intro he
  exact (List.disjoint_of_nodup_append h.pids_nodup)
    (List.mem_map.mpr ⟨g, hg, rfl⟩) (he ▸ List.mem_map.mpr ⟨j, hj, rfl⟩)

theorem WF.filterFetches {st : RendererState} (h : WF st) (p : Fetch → Bool) :
    WF { st with inFlight := st.inFlight.filter p } := by
  constructor
  · exact h.sids_lt
  · exact h.req_le
  · intro g hg; exact h.fetch_sid g (List.mem_of_mem_filter hg)
  · exact h.job_sid
  · intro g hg; exact h.fid_lt g (List.mem_of_mem_filter hg)
  · exact h.jobpid_lt
  · exact List.Nodup.sublist
      (List.Sublist.append_right ((st.inFlight.filter_sublist).map Fetch.fid) _)
      h.pids_nodup
  · intro g hg s hsess
    exact h.fetch_lp g (List.mem_of_mem_filter hg) s hsess
  · exact h.job_lp

theorem WF.filterJobs {st : RendererState} (h : WF st) (p : RenderJob → Bool) :
    WF { st with renderJobs := st.renderJobs.filter p } := by
  constructor
  · exact h.sids_lt
  · exact h.req_le
  · exact h.fetch_sid
  · intro j hj; exact h.job_sid j (List.mem_of_mem_filter hj)
  · exact h.fid_lt
  · intro j hj; exact h.jobpid_lt j (List.mem_of_mem_filter hj)
  · exact List.Nodup.sublist
      (List.Sublist.append_left ((st.renderJobs.filter_sublist).map RenderJob.pid) _)
      h.pids_nodup
  · exact h.fetch_lp
  · intro j hj s hsess
    exact h.job_lp j (List.mem_of_mem_filter hj) s hsess

theorem WF.clearIfEq {st : RendererState} (h : WF st) (sid fid : Nat)
    (hg : ∀ g ∈ st.inFlight, g.sid = sid → g.fid ≠ fid)
    (hj : ∀ j ∈ st.renderJobs, j.sid = sid → j.pid ≠ fid) :
    WF (clearLoadingPromiseIfEq st sid fid) := by
  rw [clearLoadingPromiseIfEq]
  constructor
  · intro p hp
    obtain ⟨q, hq, rfl⟩ := List.mem_map.mp hp
    by_cases hqs : q.1 = sid
    · by_cases hc : q.2.loadingPromise = some fid
      · simpa [hqs, hc] using h.sids_lt q hq
      · simpa [hqs, hc] using h.sids_lt q hq
    · simpa [hqs] using h.sids_lt q hq
  · intro p hp
    obtain ⟨q, hq, rfl⟩ := List.mem_map.mp hp
    by_cases hqs : q.1 = sid
    · by_cases hc : q.2.loadingPromise = some fid
      · simpa [hqs, hc] using h.req_le q hq
      · simpa [hqs, hc] using h.req_le q hq
    · simpa [hqs] using h.req_le q hq
  · intro g hgm
    show g.sid ∈ (updateSid st.sessions sid (fun s0 =>
      if s0.loadingPromise = some fid then { s0 with loadingPromise := none } else s0)).map Prod.fst
    rw [keys_updateSid]
    exact h.fetch_sid g hgm
  · intro j hjm
    show j.sid ∈ (updateSid st.sessions sid (fun s0 =>
      if s0.loadingPromise = some fid then { s0 with loadingPromise := none } else s0)).map Prod.fst
    rw [keys_updateSid]
    exact h.job_sid j hjm
  · exact h.fid_lt
  · exact h.jobpid_lt
  · exact h.pids_nodup
  · intro g hgm s' hsess
    by_cases hgs : g.sid = sid
    · rw [hgs, getSession_updateSession_self] at hsess
      obtain ⟨s0, hs0, rfl⟩ := Option.map_eq_some'.mp hsess
      have hlp0 : s0.loadingPromise = some g.fid := h.fetch_lp g hgm s0 (hgs ▸ hs0)
      rw [hlp0, if_neg (by simpa using hg g hgm hgs)]
      exact hlp0
    · rw [getSession_updateSession_ne _ _ _ _ hgs] at hsess
      exact h.fetch_lp g hgm s' hsess
  · intro j hjm s' hsess
    by_cases hjs : j.sid = sid
    · rw [hjs, getSession_updateSession_self] at hsess
      obtain ⟨s0, hs0, rfl⟩ := Option.map_eq_some'.mp hsess
      have hlp0 : s0.loadingPromise = some j.pid := h.job_lp j hjm s0 (hjs ▸ hs0)
      rw [hlp0, if_neg (by simpa using hj j hjm hjs)]
      exact hlp0
    · rw [getSession_updateSession_ne _ _ _ _ hjs] at hsess
      exact h.job_lp j hjm s' hsess

theorem WF.fetchResolve {st : RendererState} (h : WF st) (fid : Nat) (result : ChunkResult) :
    WF (applyFetchResolve st fid result) := by
  simp only [applyFetchResolve]
  split
  · exact h
  · next f hfind =>
    have hmemf : f ∈ st.inFlight := List.mem_of_find?_eq_some hfind
    have hffid : f.fid = fid := by simpa using List.find?_some hfind
    refine WF.clearIfEq ?_ _ _ ?_ ?_
    · split
      · exact h.filterFetches _
      · exact (h.filterFetches _).applyChunk _ _
    · intro g hgmem hgsid
      split at hgmem
      · have := (List.mem_filter.mp hgmem).2
        simpa [hffid] using this
      · rcases (stepFrame_applyChunk _ f.sid result).2.2.2.2.2.2.2.2.2.2 g hgmem with hold | hfresh
        · have := (List.mem_filter.mp hold).2
          simpa [hffid] using this
        · have hlt := h.fid_lt f hmemf
          have hfresh' : st.nextPid ≤ g.fid := hfresh
          intro he
          omega
    · intro j hjmem _
      split at hjmem
      · exact fun he => (h.pidsDisjoint hmemf hjmem) he.symm
      · rw [(stepFrame_applyChunk _ f.sid result).2.2.2.2.1] at hjmem
        exact fun he => (h.pidsDisjoint hmemf hjmem) he.symm

theorem WF.fetchRejectWF {st : RendererState} (h : WF st) (fid : Nat) (b : Bool) :
    WF (applyFetchReject st fid b) := by
  simp only [applyFetchReject]
  split
  · exact h
  · next f hfind =>
    have hmemf : f ∈ st.inFlight := List.mem_of_find?_eq_some hfind
    have hffid : f.fid = fid := by simpa using List.find?_some hfind
    refine (h.filterFetches _).clearIfEq f.sid f.fid ?_ ?_
    · intro g hgmem _
      have := (List.mem_filter.mp hgmem).2
      simpa [hffid] using this
    · intro j hjmem _
      exact fun he => (h.pidsDisjoint hmemf hjmem) he.symm

theorem WF.closeViewer {st : RendererState} (h : WF st) (force : Bool) :
    WF (closeMediaViewer st force) := by
  simp only [closeMediaViewer]
  split
  · exact h.updateKeep _ _ (by intro s0; rfl) (by intro s0; rfl)
  · exact (h.updateKeep _ _ (by intro s0; rfl) (by intro s0; rfl)).setViewer _

theorem WF.bumpSeq {st : RendererState} (h : WF st) :
    WF { st with mediaSessionSequence := st.mediaSessionSequence + 1 } := by
  constructor
  · exact h.sids_lt
  · intro p hp
    have := h.req_le p hp
    show p.2.requestId ≤ st.mediaSessionSequence + 1
    omega
  · exact h.fetch_sid
  · exact h.job_sid
  · exact h.fid_lt
  · exact h.jobpid_lt
  · exact h.pids_nodup
  · exact h.fetch_lp
  · exact h.job_lp

theorem WF.consSession {st : RendererState} (h : WF st) (s : Session) (c : Nat)
    (hreq : s.requestId ≤ st.mediaSessionSequence) :
    WF { st with sessions := (st.nextSid, s) :: st.sessions, currentSid := c,
                 nextSid := st.nextSid + 1 } := by
  constructor
  · intro p hp
    rcases List.mem_cons.mp hp with rfl | hp'
    · show st.nextSid < st.nextSid + 1
      omega
    · have := h.sids_lt p hp'
      show p.1 < st.nextSid + 1
      omega
  · intro p hp
    rcases List.mem_cons.mp hp with rfl | hp'
    · exact hreq
    · exact h.req_le p hp'
  · intro g hg
    show g.sid ∈ ((st.nextSid, s) :: st.sessions).map Prod.fst
    rw [List.map_cons]
    exact List.mem_cons_of_mem _ (h.fetch_sid g hg)
  · intro j hj
    show j.sid ∈ ((st.nextSid, s) :: st.sessions).map Prod.fst
    rw [List.map_cons]
    exact List.mem_cons_of_mem _ (h.job_sid j hj)
  · exact h.fid_lt
  · exact h.jobpid_lt
  · exact h.pids_nodup
  · intro g hg s' hsess
    have hne : g.sid ≠ st.nextSid := by
      obtain ⟨q, hq, hqe⟩ := List.mem_map.mp (h.fetch_sid g hg)
      have := h.sids_lt q hq
      omega
    rw [show getSession { st with sessions := (st.nextSid, s) :: st.sessions, currentSid := c, nextSid := st.nextSid + 1 } g.sid = lookupSid ((st.nextSid, s) :: st.sessions) g.sid from rfl,
      lookupSid_cons_ne _ _ _ _ hne] at hsess
    exact h.fetch_lp g hg s' hsess
  · intro j hj s' hsess
    have hne : j.sid ≠ st.nextSid := by
      obtain ⟨q, hq, hqe⟩ := List.mem_map.mp (h.job_sid j hj)
      have := h.sids_lt q hq
      omega
    rw [show getSession { st with sessions := (st.nextSid, s) :: st.sessions, currentSid := c, nextSid := st.nextSid + 1 } j.sid = lookupSid ((st.nextSid, s) :: st.sessions) j.sid from rfl,
      lookupSid_cons_ne _ _ _ _ hne] at hsess
    exact h.job_lp j hj s' hsess

theorem handle_of_pending_none {st : RendererState} (sid : Nat)
    (hp : (currentSession st).pendingIndex = none) :
    handleMediaViewerItemsAppended st sid = st := by
  simp only [handleMediaViewerItemsAppended, hp, ite_self]

theorem renderChunk_of_pending_none {st : RendererState} {sid : Nat}
    (chunk : List MediaFile) (cid? : Option Nat)
    (hp : ∀ s0, getSession st st.currentSid = some s0 → s0.pendingIndex = none) :
    renderMediaChunk st sid chunk cid? =
      if chunk.isEmpty || signalAborted st cid? then st
      else
        let st2 := updateSession st sid (fun s0 => { s0 with items := s0.items ++ chunk })
        let p2 := updateMediaProgressP st2.progress (((getSession st2 sid).getD createEmptyMediaSession).items.length)
        { st2 with progress := p2 } := by
  rw [renderMediaChunk]
  split
  · rfl
  · apply handle_of_pending_none
    show ((getSession (updateSession st sid (fun s0 => { s0 with items := s0.items ++ chunk }))
      st.currentSid).getD createEmptyMediaSession).pendingIndex = none
    by_cases hc : st.currentSid = sid
    · rw [hc, getSession_updateSession_self]
      cases hgs : getSession st sid with
      | none => rfl
      | some s0 =>
        have h0 := hp s0 (hc ▸ hgs)
        simpa using h0
    · rw [getSession_updateSession_ne _ _ _ _ hc]
      cases hgs : getSession st st.currentSid with
      | none => rfl
      | some s0 => simpa using hp s0 hgs

theorem startSetup_sessions (st : RendererState) (leaf : LeafData) :
    (startMediaSetup st leaf).sessions = (st.nextSid, freshSessionFor st leaf) :: st.sessions :=
  rfl

theorem startSetup_current (st : RendererState) (leaf : LeafData) :
    getSession (startMediaSetup st leaf) (startMediaSetup st leaf).currentSid =
      some (freshSessionFor st leaf) := by
  show lookupSid (startMediaSetup st leaf).sessions st.nextSid = _
  rw [startSetup_sessions]
  exact lookupSid_cons_self _ _ _

theorem WF.startSetup {st : RendererState} (h : WF st) (leaf : LeafData) :
    WF (startMediaSetup st leaf) := by
  have h1 : WF { st with renderAbort := some st.nextCid, nextCid := st.nextCid + 1 } :=
    h.congr rfl rfl rfl rfl rfl rfl
  exact ((h1.bumpSeq.consSession (freshSessionFor st leaf) st.nextSid
    (Nat.le_refl _)).setProgress _)

theorem startSync_quiet (st : RendererState) (leaf : LeafData) :
    (startMediaSyncPhase st leaf).inFlight = st.inFlight ∧
    (startMediaSyncPhase st leaf).renderJobs = st.renderJobs ∧
    (startMediaSyncPhase st leaf).nextPid = st.nextPid ∧
    (startMediaSyncPhase st leaf).sessions.map Prod.fst =
      st.nextSid :: st.sessions.map Prod.fst := by
  have hp : ∀ s0, getSession (startMediaSetup st leaf) (startMediaSetup st leaf).currentSid
      = some s0 → s0.pendingIndex = none := by
    intro s0 hs0
    rw [startSetup_current] at hs0
    exact Option.some.inj hs0 ▸ rfl
  simp only [startMediaSyncPhase]
  split
  · rw [renderChunk_of_pending_none _ _ hp]
    split
    · exact ⟨rfl, rfl, rfl, rfl⟩
    · refine ⟨rfl, rfl, rfl, ?_⟩
      have hk := keys_updateSid (startMediaSetup st leaf).sessions st.nextSid
        (fun s0 => { s0 with items := s0.items ++ (leaf.mediaFiles.getD []).take MEDIA_RENDER_BATCH_SIZE })
      exact hk.trans (by rw [startSetup_sessions]; rfl)
  · exact ⟨rfl, rfl, rfl, rfl⟩

theorem WF.startSync {st : RendererState} (h : WF st) (leaf : LeafData) :
    WF (startMediaSyncPhase st leaf) := by
  simp only [startMediaSyncPhase]
  split
  · exact (h.startSetup leaf).renderChunk _ _ _
  · exact h.startSetup leaf

theorem WF.appendJobSetLp {st : RendererState} (h : WF st) (sid cid : Nat)
    (q : List MediaFile) (fwe : Bool)
    (hsid : sid ∈ st.sessions.map Prod.fst)
    (hgs : ∀ g ∈ st.inFlight, g.sid ≠ sid)
    (hjs : ∀ j ∈ st.renderJobs, j.sid ≠ sid) :
    WF (updateSession { st with renderJobs := st.renderJobs ++ [({ pid := st.nextPid, sid := sid, cid := cid, queue := q, filesWasEmpty := fwe } : RenderJob)], nextPid := st.nextPid + 1 } sid (fun s0 => { s0 with loadingPromise := some st.nextPid })) := by
  constructor
  · intro p hp
    obtain ⟨r, hr, rfl⟩ := List.mem_map.mp hp
    by_cases hrs : r.1 = sid
    · simpa [hrs] using h.sids_lt r hr
    · simpa [hrs] using h.sids_lt r hr
  · intro p hp
    obtain ⟨r, hr, rfl⟩ := List.mem_map.mp hp
    by_cases hrs : r.1 = sid
    · simpa [hrs] using h.req_le r hr
    · simpa [hrs] using h.req_le r hr
  · intro g hg
    show g.sid ∈ (updateSid st.sessions sid
      (fun s0 => { s0 with loadingPromise := some st.nextPid })).map Prod.fst
    rw [keys_updateSid]
    exact h.fetch_sid g hg
  · intro j hj
    show j.sid ∈ (updateSid st.sessions sid
      (fun s0 => { s0 with loadingPromise := some st.nextPid })).map Prod.fst
    rw [keys_updateSid]
    rcases List.mem_append.mp hj with hold | hnew
    · exact h.job_sid j hold
    · rw [List.mem_singleton.mp hnew]
      exact hsid
  · intro g hg
    have := h.fid_lt g hg
    show g.fid < st.nextPid + 1
    omega
  · intro j hj
    rcases List.mem_append.mp hj with hold | hnew
    · have := h.jobpid_lt j hold
      show j.pid < st.nextPid + 1
      omega
    · rw [List.mem_singleton.mp hnew]
      show st.nextPid < st.nextPid + 1
      omega
  · show (st.inFlight.map Fetch.fid ++ (st.renderJobs ++ [({ pid := st.nextPid, sid := sid, cid := cid, queue := q, filesWasEmpty := fwe } : RenderJob)]).map RenderJob.pid).Nodup
    rw [List.map_append, ← List.append_assoc]
    rw [List.nodup_append]
    refine ⟨h.pids_nodup, List.nodup_singleton _, ?_⟩
    intro x hmem hx1
    simp only [List.map_cons, List.map_nil, List.mem_singleton] at hx1
    rcases List.mem_append.mp hmem with hf | hj
    · obtain ⟨g, hg, hge⟩ := List.mem_map.mp hf
      have := h.fid_lt g hg
      omega
    · obtain ⟨j0, hj0, hje⟩ := List.mem_map.mp hj
      have := h.jobpid_lt j0 hj0
      omega
  · intro g hg s' hsess
    have hne : g.sid ≠ sid := hgs g hg
    rw [getSession_updateSession_ne _ _ _ _ hne] at hsess
    exact h.fetch_lp g hg s' hsess
  · intro j hj s' hsess
    rcases List.mem_append.mp hj with hold | hnew
    · have hne : j.sid ≠ sid := hjs j hold
      rw [getSession_updateSession_ne _ _ _ _ hne] at hsess
      exact h.job_lp j hold s' hsess
    · have hje := List.mem_singleton.mp hnew
      have hjsid : j.sid = sid := by rw [hje]
      have hjpid : j.pid = st.nextPid := by rw [hje]
      rw [hjsid, getSession_updateSession_self] at hsess
      obtain ⟨s0, _, rfl⟩ := Option.map_eq_some'.mp hsess
      rw [hjpid]

theorem WF.startMedia {st : RendererState} (h : WF st) (leaf : LeafData) :
    WF (startMediaLoadingForLeaf st leaf) := by
  obtain ⟨hfl, hjb, hpd, hky⟩ := startSync_quiet st leaf
  have h4 : WF (startMediaSyncPhase st leaf) := h.startSync leaf
  simp only [startMediaLoadingForLeaf]
  refine h4.appendJobSetLp st.nextSid st.nextCid _ _ ?_ ?_ ?_
  · rw [hky]
    exact List.mem_cons_self _ _
  · intro g hg
    rw [hfl] at hg
    obtain ⟨r, hr, hre⟩ := List.mem_map.mp (h.fetch_sid g hg)
    have := h.sids_lt r hr
    omega
  · intro j hj
    rw [hjb] at hj
    obtain ⟨r, hr, hre⟩ := List.mem_map.mp (h.job_sid j hj)
    have := h.sids_lt r hr
    omega

theorem WF.resetView {st : RendererState} (h : WF st) : WF (resetMediaView st) := by
  cases hab : st.renderAbort with
  | none =>
    simp only [resetMediaView, hab]
    exact (((h.congr rfl rfl rfl rfl rfl rfl :
      WF { st with renderAbort := none }).setProgress _).consSession createEmptyMediaSession _
      (Nat.zero_le _)).closeViewer true
  | some cid =>
    simp only [resetMediaView, hab]
    exact ((((h.congr rfl rfl rfl rfl rfl rfl :
      WF { st with abortedCids := st.abortedCids ++ [cid], renderAbort := none })).setProgress
        _).consSession createEmptyMediaSession _ (Nat.zero_le _)).closeViewer true

theorem WF.renderMediaStep {st : RendererState} (h : WF st) (leaf? : Option LeafData) :
    WF (renderMedia st leaf?) := by
  cases leaf? with
  | none => exact h.resetView
  | some leaf =>
    simp only [renderMedia]
    split
    · exact h.resetView
    · exact h.resetView.startMedia leaf

theorem WF.mapJobsKeep {st : RendererState} (h : WF st) (g : RenderJob → RenderJob)
    (hpid : ∀ j, (g j).pid = j.pid) (hsid : ∀ j, (g j).sid = j.sid) :
    WF { st with renderJobs := st.renderJobs.map g } := by
  have hmap : (st.renderJobs.map g).map RenderJob.pid = st.renderJobs.map RenderJob.pid := by
    rw [List.map_map]
    apply List.map_congr_left
    intro j _
    exact hpid j
  constructor
  · exact h.sids_lt
  · exact h.req_le
  · exact h.fetch_sid
  · intro j hj
    obtain ⟨j1, hj1, rfl⟩ := List.mem_map.mp hj
    show (g j1).sid ∈ st.sessions.map Prod.fst
    rw [hsid j1]
    exact h.job_sid j1 hj1
  · exact h.fid_lt
  · intro j hj
    obtain ⟨j1, hj1, rfl⟩ := List.mem_map.mp hj
    show (g j1).pid < st.nextPid
    rw [hpid j1]
    exact h.jobpid_lt j1 hj1
  · show (st.inFlight.map Fetch.fid ++ (st.renderJobs.map g).map RenderJob.pid).Nodup
    rw [hmap]
    exact h.pids_nodup
  · exact h.fetch_lp
  · intro j hj s' hsess
    obtain ⟨j1, hj1, rfl⟩ := List.mem_map.mp hj
    rw [hsid j1] at hsess
    show s'.loadingPromise = some (g j1).pid
    rw [hpid j1]
    exact h.job_lp j1 hj1 s' hsess

theorem WF.renderStepWF {st : RendererState} (h : WF st) (pid : Nat) :
    WF (applyRenderStep st pid) := by
  simp only [applyRenderStep]
  split
  · exact h
  · split
    · exact h
    · exact (h.renderChunk _ _ _).mapJobsKeep _
        (fun j0 => by by_cases hc : j0.pid = pid <;> simp [hc])
        (fun j0 => by by_cases hc : j0.pid = pid <;> simp [hc])

theorem WF.clearCur {st : RendererState} (h : WF st) (sid : Nat)
    (hg : ∀ g ∈ st.inFlight, g.sid = sid → ∀ s0, getSession st sid = some s0 → False)
    (hj : ∀ j0 ∈ st.renderJobs, j0.sid = sid → ∀ s0, getSession st sid = some s0 → False) :
    WF (updateSession st sid (fun s0 => { s0 with loadingPromise := none })) := by
  constructor
  · intro p hp
    obtain ⟨r, hr, rfl⟩ := List.mem_map.mp hp
    by_cases hrs : r.1 = sid
    · simpa [hrs] using h.sids_lt r hr
    · simpa [hrs] using h.sids_lt r hr
  · intro p hp
    obtain ⟨r, hr, rfl⟩ := List.mem_map.mp hp
    by_cases hrs : r.1 = sid
    · simpa [hrs] using h.req_le r hr
    · simpa [hrs] using h.req_le r hr
  · intro g hgm
    show g.sid ∈ (updateSid st.sessions sid
      (fun s0 => { s0 with loadingPromise := none })).map Prod.fst
    rw [keys_updateSid]
    exact h.fetch_sid g hgm
  · intro j hjm
    show j.sid ∈ (updateSid st.sessions sid
      (fun s0 => { s0 with loadingPromise := none })).map Prod.fst
    rw [keys_updateSid]
    exact h.job_sid j hjm
  · exact h.fid_lt
  · exact h.jobpid_lt
  · exact h.pids_nodup
  · intro g hgm s' hsess
    by_cases hgs : g.sid = sid
    · rw [hgs, getSession_updateSession_self] at hsess
      obtain ⟨s0, hs0, rfl⟩ := Option.map_eq_some'.mp hsess
      exact (hg g hgm hgs s0 hs0).elim
    · rw [getSession_updateSession_ne _ _ _ _ hgs] at hsess
      exact h.fetch_lp g hgm s' hsess
  · intro j hjm s' hsess
    by_cases hjs : j.sid = sid
    · rw [hjs, getSession_updateSession_self] at hsess
      obtain ⟨s0, hs0, rfl⟩ := Option.map_eq_some'.mp hsess
      exact (hj j hjm hjs s0 hs0).elim
    · rw [getSession_updateSession_ne _ _ _ _ hjs] at hsess
      exact h.job_lp j hjm s' hsess

theorem WF.finishAbort {st : RendererState} (h : WF st) (cid : Nat) :
    WF (if st.renderAbort = some cid then
      { st with renderAbort := none, progress := finishMediaProgressP st.progress } else st) := by
  split
  · exact h.congr rfl rfl rfl rfl rfl rfl
  · exact h

theorem WF.settledCleanup {st : RendererState} (h : WF st) (pid sid cid : Nat)
    (hg : ∀ g ∈ st.inFlight, g.sid = sid → ∀ s0, getSession st sid = some s0 → False)
    (hj : ∀ j0 ∈ st.renderJobs, j0.pid ≠ pid → j0.sid = sid → ∀ s0,
      getSession st sid = some s0 → False) :
    WF (renderSettledCleanup st pid sid cid) := by
  simp only [renderSettledCleanup]
  have hF : WF ({ st with renderJobs := st.renderJobs.filter (fun j0 => j0.pid ≠ pid) } : RendererState) :=
    h.filterJobs _
  have hG : WF (if ({ st with renderJobs := st.renderJobs.filter (fun j0 => j0.pid ≠ pid) } : RendererState).currentSid = sid then updateSession { st with renderJobs := st.renderJobs.filter (fun j0 => j0.pid ≠ pid) } sid (fun s0 => { s0 with loadingPromise := none }) else { st with renderJobs := st.renderJobs.filter (fun j0 => j0.pid ≠ pid) }) := by
    split
    · refine hF.clearCur sid ?_ ?_
      · intro g hg0 hgs s0 hs0
        exact hg g hg0 hgs s0 hs0
      · intro j0 hj0 hjs s0 hs0
        have hm := List.mem_filter.mp hj0
        have hne : j0.pid ≠ pid := by simpa using hm.2
        exact hj j0 hm.1 hne hjs s0 hs0
    · exact hF
  exact hG.finishAbort cid

theorem WF.renderSettledWF {st : RendererState} (h : WF st) (pid : Nat) :
    WF (applyRenderSettled st pid) := by
  simp only [applyRenderSettled]
  split
  · exact h
  · next j hfind =>
    split
    · exact h
    · have hjm : j ∈ st.renderJobs := List.mem_of_find?_eq_some hfind
      have hjpid : j.pid = pid := by simpa using List.find?_some hfind
      have hclean : WF (renderSettledCleanup st pid j.sid j.cid) := by
        refine h.settledCleanup pid j.sid j.cid ?_ ?_
        · intro g hg hgs s0 hs0
          have h1 := h.fetch_lp g hg s0 (by rw [hgs]; exact hs0)
          have h2 := h.job_lp j hjm s0 hs0
          rw [h1] at h2
          exact h.pidsDisjoint hg hjm (Option.some.inj h2)
        · intro j0 hj0 hne hjs s0 hs0
          have h1 := h.job_lp j0 hj0 s0 (by rw [hjs]; exact hs0)
          have h2 := h.job_lp j hjm s0 hs0
          rw [h1] at h2
          exact hne (by rw [Option.some.inj h2, hjpid])
      split
      · exact (hclean.handleAppended _).fetchNext _
      · exact hclean.handleAppended _

theorem WF.openViewerWF {st : RendererState} (h : WF st) (index : Int) :
    WF (openMediaViewerAtIndex st index) := by
  simp only [openMediaViewerAtIndex]
  split
  · exact h
  · split
    · exact (((h.ensureActive _).updateKeep _ _ (by intro s0; rfl)
        (by intro s0; rfl)).showLoading _ _).fetchNext _
    · exact ((h.ensureActive _).updateKeep _ _ (by intro s0; rfl)
        (by intro s0; rfl)).showItem _

theorem WF.stepViewerWF {st : RendererState} (h : WF st) (delta : Int) :
    WF (stepMediaViewer st delta) := by
  simp only [stepMediaViewer]
  split
  · exact h
  · split
    · exact h
    · split
      · exact h
      · split
        · exact h
        · exact h.openViewerWF _

theorem WF.step {st : RendererState} (h : WF st) (e : Event) : WF (applyEvent st e) := by
  cases e with
  | selectLeaf leaf => simp only [applyEvent]; exact h.renderMediaStep _
  | deselect => simp only [applyEvent]; exact h.renderMediaStep _
  | renderStep pid => simp only [applyEvent]; exact h.renderStepWF _
  | renderSettled pid => simp only [applyEvent]; exact h.renderSettledWF _
  | fetchResolve fid result => simp only [applyEvent]; exact h.fetchResolve _ _
  | fetchReject fid b => simp only [applyEvent]; exact h.fetchRejectWF _ _
  | openViewerAt index => simp only [applyEvent]; exact h.openViewerWF _
  | stepViewer delta => simp only [applyEvent]; exact h.stepViewerWF _
  | closeViewer => simp only [applyEvent]; exact h.closeViewer _

theorem wf_initState (b : Bool) : WF (initState b) := by
  constructor
  · intro p hp
    rcases List.mem_cons.mp hp with rfl | hp'
    · show (0 : Nat) < 1
      omega
    · simp at hp'
  · intro p hp
    rcases List.mem_cons.mp hp with rfl | hp'
    · exact Nat.le_refl _
    · simp at hp'
  · intro g hg
    simp [initState] at hg
  · intro j hj
    simp [initState] at hj
  · intro g hg
    simp [initState] at hg
  · intro j hj
    simp [initState] at hj
  · simp [initState]
  · intro g hg
    simp [initState] at hg
  · intro j hj
    simp [initState] at hj

theorem wf_foldl (es : List Event) : ∀ st, WF st → WF (es.foldl applyEvent st) := by
  induction es with
  | nil => intro st h; exact h
  | cons e es ih =>
    intro st h
    exact ih _ (h.step e)

theorem reachable_wf {st : RendererState} (h : Reachable st) : WF st := by
  obtain ⟨b, es, rfl⟩ := h
  exact wf_foldl es _ (wf_initState b)

/-- Witness for C9: negative offset and NaN limit on a 3-element listing. -/
theorem listMediaFiles_contract_witness :
    ((listMediaFiles ["a", "b", "c"] (.fin (-7)) .nan).offset = 0)
    ∧ ((listMediaFiles ["a", "b", "c"] (.fin (-7)) .nan).nextOffset = 3
        ∧ (listMediaFiles ["a", "b", "c"] (.fin (-7)) .nan).files =
            (["a", "b", "c"] : List String).drop
              (listMediaFiles ["a", "b", "c"] (.fin (-7)) .nan).offset) :=
  ⟨(listMediaFiles_contract ["a", "b", "c"] (.fin (-7)) .nan).2.2.2.2.2.1
      (Or.inr (Or.inr (Or.inr ⟨-7, rfl, by norm_num⟩))),
    (listMediaFiles_contract ["a", "b", "c"] (.fin (-7)) .nan).2.2.2.2.2.2.1 (Or.inl rfl)⟩

/-! ## Claims about the renderer machine -/

theorem lookupSid_exists_of_mem {l : List (Nat × Session)} {sid : Nat}
    (h : sid ∈ l.map Prod.fst) : ∃ s, lookupSid l sid = some s := by
  induction l with
  | nil => simp at h
  | cons p l ih =>
    obtain ⟨k, s2⟩ := p
    by_cases hc : k = sid
    · subst hc
      exact ⟨s2, lookupSid_cons_self _ _ _⟩
    · rw [List.map_cons] at h
      rcases List.mem_cons.mp h with h1 | h2
      · exact absurd h1.symm hc
      · obtain ⟨s, hs⟩ := ih h2
        exact ⟨s, by rw [lookupSid_cons_ne _ _ _ _ (fun he => hc he.symm)]; exact hs⟩

theorem find?_fid_of_nodup {l : List Fetch} (h : (l.map Fetch.fid).Nodup) {f : Fetch}
    (hf : f ∈ l) : l.find? (fun g => g.fid = f.fid) = some f := by
  induction l with
  | nil => cases hf
  | cons a l ih =>
    rw [List.map_cons, List.nodup_cons] at h
    rcases List.mem_cons.mp hf with rfl | hf'
    · rw [List.find?_cons_of_pos _ (by simp)]
    · have hane : a.fid ≠ f.fid := fun he => h.1 (he ▸ List.mem_map.mpr ⟨f, hf', rfl⟩)
      rw [List.find?_cons_of_neg _ (by simpa using hane)]
      exact ih h.2 hf'

theorem getSession_setInFlight (st : RendererState) (l : List Fetch) (sid : Nat) :
    getSession { st with inFlight := l } sid = getSession st sid := rfl

theorem getSession_setJobsPid (st : RendererState) (jobs : List RenderJob) (np : Nat)
    (sid : Nat) :
    getSession { st with renderJobs := jobs, nextPid := np } sid = getSession st sid := rfl

theorem getSession_setProgress (st : RendererState) (p : ProgressState) (sid : Nat) :
    getSession { st with progress := p } sid = getSession st sid := rfl

theorem getSession_ensureActive (st : RendererState) (r : Nat) (sid : Nat) :
    getSession (ensureMediaViewerActive st r) sid = getSession st sid := rfl

theorem getSession_showLoading (st : RendererState) (i t : Nat) (sid : Nat) :
    getSession (showMediaViewerLoadingState st i t) sid = getSession st sid := rfl

/-- C2 (single in-flight fetch per session): in every reachable renderer
state any two in-flight page fetches that belong to the same session
object are the same fetch, and calling `fetchNextMediaChunk` on a
session whose `loadingPromise` is non-null returns the state unchanged
together with the existing promise — no new fetch is issued, regardless
of which caller (auto-paging, random access, or read-ahead) asked. -/
theorem single_inflight_per_session :
    (∀ (st : RendererState), Reachable st → ∀ f ∈ st.inFlight, ∀ g ∈ st.inFlight,
      f.sid = g.sid → f = g) ∧
    (∀ (st : RendererState) (sid : Nat) (s : Session) (p : Nat),
      getSession st sid = some s → s.loadingPromise = some p →
      fetchNextMediaChunk st sid = (st, some p)) := by
  constructor
  · intro st hreach f hf g hg hsid
    have h := reachable_wf hreach
    obtain ⟨s, hs⟩ := lookupSid_exists_of_mem (h.fetch_sid f hf)
    have h1 := h.fetch_lp f hf s hs
    have h2 := h.fetch_lp g hg s (by rw [← hsid]; exact hs)
    rw [h1] at h2
    exact eq_of_nodup_map
      (List.Nodup.sublist (List.sublist_append_left _ _) h.pids_nodup) hf hg
      (Option.some.inj h2)
  · intro st sid s p hs hlp
    exact fetchNext_of_loading hs hlp

/-- Witness for C2 at the concrete state `stFetching`, which has exactly
one in-flight fetch for the current session. -/
theorem single_inflight_per_session_witness :
    fetchHome = fetchHome ∧ fetchNextMediaChunk stFetching 2 = (stFetching, some 1) :=
  ⟨single_inflight_per_session.1 stFetching
      ⟨true, [Event.selectLeaf leafHome, Event.renderSettled 0], rfl⟩
      fetchHome (by rw [show stFetching.inFlight = [fetchHome] from rfl]; exact List.mem_cons_self _ _)
      fetchHome (by rw [show stFetching.inFlight = [fetchHome] from rfl]; exact List.mem_cons_self _ _)
      rfl,
   single_inflight_per_session.2 stFetching 2 sessionHome 1 (by rfl) (by rfl)⟩

theorem entry_mem_of_lookupSid {l : List (Nat × Session)} {sid : Nat} {s : Session}
    (h : lookupSid l sid = some s) : (sid, s) ∈ l := by
  rw [lookupSid] at h
  cases hf : l.find? (fun p => p.1 = sid) with
  | none => rw [hf] at h; cases h
  | some p =>
    rw [hf] at h
    have hm := List.mem_of_find?_eq_some hf
    have hp : p.1 = sid := by simpa using List.find?_some hf
    have hs : p.2 = s := Option.some.inj h
    rw [← hp, ← hs]
    exact hm

theorem startSync_currentSid (st : RendererState) (leaf : LeafData) :
    (startMediaSyncPhase st leaf).currentSid = st.nextSid := by
  simp only [startMediaSyncPhase]
  split
  · exact ((stepFrame_renderChunk _ _ _ _).2.1).trans rfl
  · rfl

theorem startMedia_currentSid (st : RendererState) (leaf : LeafData) :
    (startMediaLoadingForLeaf st leaf).currentSid = st.nextSid := by
  simp only [startMediaLoadingForLeaf]
  show (startMediaSyncPhase st leaf).currentSid = st.nextSid
  exact startSync_currentSid st leaf

theorem startMedia_inFlight (st : RendererState) (leaf : LeafData) :
    (startMediaLoadingForLeaf st leaf).inFlight = st.inFlight := by
  simp only [startMediaLoadingForLeaf]
  show (startMediaSyncPhase st leaf).inFlight = st.inFlight
  exact (startSync_quiet st leaf).1

theorem startSync_current (st : RendererState) (leaf : LeafData) :
    ∃ its, getSession (startMediaSyncPhase st leaf) st.nextSid =
      some { requestId := st.mediaSessionSequence + 1,
             totalCount := max (leaf.mediaFiles.getD []).length ((getLeafMediaTotal leaf).getD 0),
             items := its, pendingIndex := none, loadingPromise := none,
             leafPath := leaf.path } := by
  have hp : ∀ s0, getSession (startMediaSetup st leaf) (startMediaSetup st leaf).currentSid
      = some s0 → s0.pendingIndex = none := by
    intro s0 hs0
    rw [startSetup_current] at hs0
    exact Option.some.inj hs0 ▸ rfl
  simp only [startMediaSyncPhase]
  split
  · rw [renderChunk_of_pending_none _ _ hp]
    split
    · exact ⟨[], startSetup_current st leaf⟩
    · refine ⟨(leaf.mediaFiles.getD []).take MEDIA_RENDER_BATCH_SIZE, ?_⟩
      show getSession (updateSession (startMediaSetup st leaf) st.nextSid
        (fun s0 => { s0 with items := s0.items ++ (leaf.mediaFiles.getD []).take MEDIA_RENDER_BATCH_SIZE })) st.nextSid = _
      rw [getSession_updateSession_self,
        show getSession (startMediaSetup st leaf) st.nextSid = some (freshSessionFor st leaf)
          from startSetup_current st leaf]
      rfl
  · exact ⟨[], startSetup_current st leaf⟩

theorem startMedia_current (st : RendererState) (leaf : LeafData) :
    ∃ its lp2, getSession (startMediaLoadingForLeaf st leaf) st.nextSid =
      some { requestId := st.mediaSessionSequence + 1,
             totalCount := max (leaf.mediaFiles.getD []).length ((getLeafMediaTotal leaf).getD 0),
             items := its, pendingIndex := none, loadingPromise := lp2,
             leafPath := leaf.path } := by
  obtain ⟨its, hits⟩ := startSync_current st leaf
  refine ⟨its, some (startMediaSyncPhase st leaf).nextPid, ?_⟩
  simp only [startMediaLoadingForLeaf]
  rw [getSession_updateSession_self, getSession_setJobsPid, hits]
  rfl

theorem resolve_stale_of_not_current {st : RendererState} {f : Fetch} (h : WF st)
    (hf : f ∈ st.inFlight) (hne : f.sid ≠ st.currentSid) (result : ChunkResult) :
    applyFetchResolve st f.fid result =
      clearLoadingPromiseIfEq { st with inFlight := st.inFlight.filter (fun g => g.fid ≠ f.fid) }
        f.sid f.fid := by
  have hfind := find?_fid_of_nodup
    (List.Nodup.sublist (List.sublist_append_left _ _) h.pids_nodup) hf
  simp only [applyFetchResolve, hfind]
  rw [getSession_setInFlight]
  cases hgs : getSession st f.sid with
  | none => simp [hgs]
  | some s => simp [hgs, hne]

/-- C1 (staleness rejection): from any reachable state, selecting a new
leaf creates a session B whose `requestId` is strictly larger than that
of any stored session A and whose object identity differs from every
fetch already in flight; delivering such an old fetch's response — with
any result value — afterwards leaves B's stored session (its `items`,
`totalCount`, `pendingIndex`, everything) completely unchanged, because
the `session !== mediaSession || requestId !== session.requestId`
staleness check discards the response. -/
theorem staleness_rejection :
    ∀ (st : RendererState) (leaf : LeafData) (f : Fetch) (sA sB : Session)
      (result : ChunkResult),
      Reachable st →
      f ∈ st.inFlight →
      getSession st f.sid = some sA →
      getSession (startMediaLoadingForLeaf st leaf)
        (startMediaLoadingForLeaf st leaf).currentSid = some sB →
      sA.requestId < sB.requestId ∧
      (startMediaLoadingForLeaf st leaf).currentSid ≠ f.sid ∧
      getSession (applyFetchResolve (startMediaLoadingForLeaf st leaf) f.fid result)
        (startMediaLoadingForLeaf st leaf).currentSid = some sB := by
  intro st leaf f sA sB result hreach hf hsA hsB
  have h := reachable_wf hreach
  have h' : WF (startMediaLoadingForLeaf st leaf) := h.startMedia leaf
  have hcur : (startMediaLoadingForLeaf st leaf).currentSid = st.nextSid :=
    startMedia_currentSid st leaf
  have hflt : f.sid < st.nextSid := by
    obtain ⟨q, hq, hqe⟩ := List.mem_map.mp (h.fetch_sid f hf)
    have := h.sids_lt q hq
    omega
  have hne : (startMediaLoadingForLeaf st leaf).currentSid ≠ f.sid := by
    rw [hcur]
    omega
  obtain ⟨its, lp2, hB⟩ := startMedia_current st leaf
  rw [hcur, hB] at hsB
  obtain rfl := Option.some.inj hsB
  refine ⟨?_, hne, ?_⟩
  · have hle : sA.requestId ≤ st.mediaSessionSequence :=
      h.req_le (f.sid, sA) (entry_mem_of_lookupSid hsA)
    show sA.requestId < st.mediaSessionSequence + 1
    omega
  · have hf' : f ∈ (startMediaLoadingForLeaf st leaf).inFlight := by
      rw [startMedia_inFlight]
      exact hf
    have hne2 : f.sid ≠ (startMediaLoadingForLeaf st leaf).currentSid := fun he => hne he.symm
    rw [resolve_stale_of_not_current h' hf' hne2 result, clearLoadingPromiseIfEq,
      getSession_updateSession_ne _ _ _ _ hne, getSession_setInFlight, hcur]
    exact hB

/-- Witness for C1: the in-flight fetch of `stFetching` (issued for
session 2) delivered after `leafBravo`'s session 3 exists leaves session
3 untouched. -/
theorem staleness_rejection_witness :
    sessionHome.requestId < sessionBravo.requestId ∧
    (startMediaLoadingForLeaf stFetching leafBravo).currentSid ≠ fetchHome.sid ∧
    getSession (applyFetchResolve (startMediaLoadingForLeaf stFetching leafBravo)
        fetchHome.fid ChunkResult.nullish)
      (startMediaLoadingForLeaf stFetching leafBravo).currentSid = some sessionBravo :=
  staleness_rejection stFetching leafBravo fetchHome sessionHome sessionBravo .nullish
    ⟨true, [Event.selectLeaf leafHome, Event.renderSettled 0], rfl⟩
    (by rw [show stFetching.inFlight = [fetchHome] from rfl]; exact List.mem_cons_self _ _)
    (by rfl) (by rfl)

/-- C5 counterexample: delivering a page-fetch rejection to `stFetching`
leaves the viewer and the progress bar untouched (no user-visible
failure is surfaced), the owning session merely loses its
`loadingPromise` (no `Error`/`done` marker exists in the state at all),
and the very next `fetchNextMediaChunk` call issues a fresh fetch for
the same session — the session is not terminated and retrying is
possible. -/
theorem fetch_failure_counterexample :
    (applyFetchReject stFetching 1 false).viewer = stFetching.viewer ∧
    (applyFetchReject stFetching 1 false).progress = stFetching.progress ∧
    getSession (applyFetchReject stFetching 1 false) 2 =
      some { sessionHome with loadingPromise := none } ∧
    (fetchNextMediaChunk (applyFetchReject stFetching 1 false) 2).2 = some 2 ∧
    (fetchNextMediaChunk (applyFetchReject stFetching 1 false) 2).1.inFlight.length = 1 :=
  ⟨rfl, rfl, rfl, rfl, rfl⟩

/-- C5 (amended): the rejection handler of the page-fetch promise only
writes to the console; its whole state effect is the `finally` handler.
Delivering a rejection changes neither the viewer, nor the progress
bar, nor the render jobs, and every session keeps its `items`,
`totalCount`, `pendingIndex` and `requestId` — no Error/done state is
entered and no user-visible message is produced, so a later call may
fetch again. -/
theorem fetch_failure_amended :
    ∀ (st : RendererState) (fid : Nat) (b : Bool),
      (applyFetchReject st fid b).viewer = st.viewer ∧
      (applyFetchReject st fid b).progress = st.progress ∧
      (applyFetchReject st fid b).renderJobs = st.renderJobs ∧
      (∀ sid s, getSession st sid = some s →
        ∃ s', getSession (applyFetchReject st fid b) sid = some s' ∧
          s'.items = s.items ∧ s'.totalCount = s.totalCount ∧
          s'.pendingIndex = s.pendingIndex ∧ s'.requestId = s.requestId) := by
  intro st fid b
  simp only [applyFetchReject]
  split
  · exact ⟨rfl, rfl, rfl, fun sid s hs => ⟨s, hs, rfl, rfl, rfl, rfl⟩⟩
  · next f hfind =>
    refine ⟨rfl, rfl, rfl, ?_⟩
    intro sid s hs
    rw [clearLoadingPromiseIfEq]
    by_cases hc : sid = f.sid
    · subst hc
      rw [getSession_updateSession_self, getSession_setInFlight, hs]
      refine ⟨_, rfl, ?_, ?_, ?_, ?_⟩ <;>
        (by_cases hlp : s.loadingPromise = some f.fid <;> simp [hlp])
    · rw [getSession_updateSession_ne _ _ _ _ hc]
      exact ⟨s, hs, rfl, rfl, rfl, rfl⟩

/-- Witness for the amended C5 at the concrete state `stFetching`. -/
theorem fetch_failure_amended_witness :
    ∃ s', getSession (applyFetchReject stFetching 1 false) 2 = some s' ∧
      s'.items = sessionHome.items ∧ s'.totalCount = sessionHome.totalCount ∧
      s'.pendingIndex = sessionHome.pendingIndex ∧ s'.requestId = sessionHome.requestId :=
  (fetch_failure_amended stFetching 1 false).2.2.2 2 sessionHome (by rfl)

theorem totalMono_refl (st : RendererState) : TotalMono st st :=
  fun _ s hs => ⟨s, hs, Nat.le_refl _⟩

theorem TotalMono.chain {a b c : RendererState} (h1 : TotalMono a b) (h2 : TotalMono b c) :
    TotalMono a c := by
  intro sid s hs
  obtain ⟨s1, hs1, hle1⟩ := h1 sid s hs
  obtain ⟨s2, hs2, hle2⟩ := h2 sid s1 hs1
  exact ⟨s2, hs2, Nat.le_trans hle1 hle2⟩

theorem TotalMono.keepSessions {a b c : RendererState} (h : TotalMono a b)
    (heq : c.sessions = b.sessions) : TotalMono a c := by
  intro sid s hs
  obtain ⟨s1, hs1, hle1⟩ := h sid s hs
  refine ⟨s1, ?_, hle1⟩
  rw [getSession, heq]
  exact hs1

theorem TotalMono.update {a b : RendererState} (h : TotalMono a b) (sid : Nat)
    (f : Session → Session) (hf : ∀ s0, s0.totalCount ≤ (f s0).totalCount) :
    TotalMono a (updateSession b sid f) := by
  refine h.chain ?_
  intro sid0 s hs
  by_cases hc : sid0 = sid
  · subst hc
    rw [getSession_updateSession_self, hs]
    exact ⟨f s, rfl, hf s⟩
  · rw [getSession_updateSession_ne _ _ _ _ hc]
    exact ⟨s, hs, Nat.le_refl _⟩

theorem totalMono_setViewerW {st : RendererState} (v : ViewerState) :
    TotalMono st { st with viewer := v } :=
  fun _ s hs => ⟨s, hs, Nat.le_refl _⟩

theorem totalMono_setProgressW {st : RendererState} (p : ProgressState) :
    TotalMono st { st with progress := p } :=
  fun _ s hs => ⟨s, hs, Nat.le_refl _⟩

theorem totalMono_setInFlightW {st : RendererState} (l : List Fetch) :
    TotalMono st { st with inFlight := l } :=
  fun _ s hs => ⟨s, hs, Nat.le_refl _⟩

theorem totalMono_ensureW {st : RendererState} (r : Nat) :
    TotalMono st (ensureMediaViewerActive st r) :=
  fun _ s hs => ⟨s, hs, Nat.le_refl _⟩

theorem totalMono_showLoadingW {st : RendererState} (i t : Nat) :
    TotalMono st (showMediaViewerLoadingState st i t) :=
  fun _ s hs => ⟨s, hs, Nat.le_refl _⟩

theorem totalMono_sessionsEq {st st' : RendererState} (heq : st'.sessions = st.sessions) :
    TotalMono st st' := by
  intro sid s hs
  refine ⟨s, ?_, Nat.le_refl _⟩
  rw [getSession, heq]
  exact hs

theorem totalMono_update1 (st : RendererState) (sid : Nat) (f : Session → Session)
    (hf : ∀ s0, s0.totalCount ≤ (f s0).totalCount) :
    TotalMono st (updateSession st sid f) := by
  intro sid0 s hs
  by_cases hc : sid0 = sid
  · subst hc
    rw [getSession_updateSession_self, hs]
    exact ⟨f s, rfl, hf s⟩
  · rw [getSession_updateSession_ne _ _ _ _ hc]
    exact ⟨s, hs, Nat.le_refl _⟩

theorem TotalMono.consFresh {a b : RendererState} (h : TotalMono a b) (hwf : WF b)
    (s2 : Session) (c : Nat) :
    TotalMono a { b with sessions := (b.nextSid, s2) :: b.sessions, currentSid := c, nextSid := b.nextSid + 1 } := by
  refine h.chain ?_
  intro sid s hs
  have hne : sid ≠ b.nextSid := by
    obtain ⟨q, hq, hqe⟩ := List.mem_map.mp (mem_keys_of_lookupSid hs)
    have := hwf.sids_lt q hq
    omega
  refine ⟨s, ?_, Nat.le_refl _⟩
  rw [show getSession { b with sessions := (b.nextSid, s2) :: b.sessions, currentSid := c, nextSid := b.nextSid + 1 } sid = lookupSid ((b.nextSid, s2) :: b.sessions) sid from rfl,
    lookupSid_cons_ne _ _ _ _ hne]
  exact hs

theorem totalMono_fetchNext (st : RendererState) (sid : Nat) :
    TotalMono st (fetchNextMediaChunk st sid).1 := by
  rcases fetchNext_cases st sid with heq | ⟨s, lp, hs, hlp, hapi, hpath, heq⟩
  · rw [heq]
    exact totalMono_refl st
  · rw [heq]
    refine TotalMono.chain ?_ (totalMono_update1 _ _ _ (by intro s0; exact Nat.le_refl _))
    exact totalMono_sessionsEq rfl

theorem TotalMono.thenFetch {a b : RendererState} (h : TotalMono a b) (sid : Nat) :
    TotalMono a (fetchNextMediaChunk b sid).1 :=
  h.chain (totalMono_fetchNext b sid)

theorem TotalMono.abortFinish {a b : RendererState} (h : TotalMono a b) (cid : Nat) :
    TotalMono a (if b.renderAbort = some cid then
      { b with renderAbort := none, progress := finishMediaProgressP b.progress } else b) := by
  split
  · exact h.keepSessions rfl
  · exact h

theorem totalMono_showItem (st : RendererState) (idx : Int) :
    TotalMono st (showMediaViewerItem st idx) := by
  simp only [showMediaViewerItem]
  split
  · exact totalMono_refl st
  · split
    · exact totalMono_refl st
    · split
      · refine TotalMono.chain ?_ (totalMono_fetchNext _ _)
        refine TotalMono.chain ?_ (totalMono_showLoadingW _ _)
        exact totalMono_update1 _ _ _ (by intro s0; exact Nat.le_refl _)
      · split
        · exact totalMono_refl st
        · split
          · refine TotalMono.chain ?_ (totalMono_fetchNext _ _)
            refine TotalMono.chain ?_ (totalMono_setViewerW _)
            refine TotalMono.chain ?_ (totalMono_update1 _ _ _ (by intro s0; exact Nat.le_refl _))
            exact totalMono_ensureW _
          · refine TotalMono.chain ?_ (totalMono_setViewerW _)
            refine TotalMono.chain ?_ (totalMono_update1 _ _ _ (by intro s0; exact Nat.le_refl _))
            exact totalMono_ensureW _

theorem totalMono_handle (st : RendererState) (sid : Nat) :
    TotalMono st (handleMediaViewerItemsAppended st sid) := by
  simp only [handleMediaViewerItemsAppended]
  split
  · exact totalMono_refl st
  · split
    · split
      · refine TotalMono.chain ?_ (totalMono_showItem _ _)
        exact totalMono_update1 _ _ _ (by intro s0; exact Nat.le_refl _)
      · exact totalMono_refl st
    · exact totalMono_refl st

theorem totalMono_renderChunk (st : RendererState) (sid : Nat) (chunk : List MediaFile)
    (cid? : Option Nat) : TotalMono st (renderMediaChunk st sid chunk cid?) := by
  simp only [renderMediaChunk]
  split
  · exact totalMono_refl st
  · refine TotalMono.chain ?_ (totalMono_handle _ _)
    refine TotalMono.chain ?_ (totalMono_setProgressW _)
    exact totalMono_update1 _ _ _ (by intro s0; exact Nat.le_refl _)

theorem totalMono_chunkTotals {st : RendererState} {sid : Nat} {s : Session}
    (rep : Option Nat) (hs : getSession st sid = some s) :
    TotalMono st (applyChunkTotals st sid s rep) := by
  cases rep with
  | none => exact totalMono_refl st
  | some tc =>
    simp only [applyChunkTotals]
    split
    · next hlt =>
      intro sid0 s0 hs0
      by_cases hc : sid0 = sid
      · subst hc
        obtain rfl : s0 = s := by rw [hs0] at hs; exact Option.some.inj hs
        rw [getSession_setProgress, getSession_updateSession_self, hs0]
        exact ⟨_, rfl, Nat.le_of_lt hlt⟩
      · rw [getSession_setProgress, getSession_updateSession_ne _ _ _ _ hc]
        exact ⟨s0, hs0, Nat.le_refl _⟩
    · intro sid0 s0 hs0
      rw [getSession_setProgress]
      exact ⟨s0, hs0, Nat.le_refl _⟩

theorem totalMono_applyChunk (st : RendererState) (sid : Nat) (result : ChunkResult) :
    TotalMono st (applyMediaChunk st sid result) := by
  simp only [applyMediaChunk]
  split
  · exact totalMono_refl st
  · next s hs =>
    have h1 : TotalMono st (applyChunkTotals st sid s (normalizeMediaChunkResult result).2) :=
      totalMono_chunkTotals _ hs
    split
    · exact h1
    · split
      · exact h1
      · exact h1.chain (totalMono_renderChunk _ _ _ _)

theorem totalMono_clearIfEq (st : RendererState) (sid fid : Nat) :
    TotalMono st (clearLoadingPromiseIfEq st sid fid) := by
  rw [clearLoadingPromiseIfEq]
  exact totalMono_update1 _ _ _
    (fun s0 => by by_cases hc : s0.loadingPromise = some fid <;> simp [hc])

theorem totalMono_resolve (st : RendererState) (fid : Nat) (result : ChunkResult) :
    TotalMono st (applyFetchResolve st fid result) := by
  simp only [applyFetchResolve]
  split
  · exact totalMono_refl st
  · next f hfind =>
    refine TotalMono.chain ?_ (totalMono_clearIfEq _ _ _)
    split
    · exact totalMono_setInFlightW _
    · refine TotalMono.chain ?_ (totalMono_applyChunk _ _ _)
      exact totalMono_setInFlightW _

theorem totalMono_reject (st : RendererState) (fid : Nat) (b : Bool) :
    TotalMono st (applyFetchReject st fid b) := by
  simp only [applyFetchReject]
  split
  · exact totalMono_refl st
  · refine TotalMono.chain ?_ (totalMono_clearIfEq _ _ _)
    exact totalMono_setInFlightW _

theorem totalMono_close (st : RendererState) (force : Bool) :
    TotalMono st (closeMediaViewer st force) := by
  simp only [closeMediaViewer]
  split
  · exact totalMono_update1 _ _ _ (by intro s0; exact Nat.le_refl _)
  · refine TotalMono.chain ?_ (totalMono_setViewerW _)
    exact totalMono_update1 _ _ _ (by intro s0; exact Nat.le_refl _)

theorem totalMono_reset {st : RendererState} (h : WF st) : TotalMono st (resetMediaView st) := by
  cases hab : st.renderAbort with
  | none =>
    simp only [resetMediaView, hab]
    have hm1 : TotalMono st ({ st with renderAbort := none, progress := resetMediaProgressP st.progress } : RendererState) :=
      (totalMono_refl st).keepSessions rfl
    have hw1 : WF ({ st with renderAbort := none, progress := resetMediaProgressP st.progress } : RendererState) :=
      h.congr rfl rfl rfl rfl rfl rfl
    exact (hm1.consFresh hw1 createEmptyMediaSession _).chain (totalMono_close _ _)
  | some cid =>
    simp only [resetMediaView, hab]
    have hm1 : TotalMono st ({ st with abortedCids := st.abortedCids ++ [cid], renderAbort := none, progress := resetMediaProgressP st.progress } : RendererState) :=
      (totalMono_refl st).keepSessions rfl
    have hw1 : WF ({ st with abortedCids := st.abortedCids ++ [cid], renderAbort := none, progress := resetMediaProgressP st.progress } : RendererState) :=
      h.congr rfl rfl rfl rfl rfl rfl
    exact (hm1.consFresh hw1 createEmptyMediaSession _).chain (totalMono_close _ _)

theorem totalMono_startMedia {st : RendererState} (h : WF st) (leaf : LeafData) :
    TotalMono st (startMediaLoadingForLeaf st leaf) := by
  have hm3 : TotalMono st (startMediaSetup st leaf) := by
    intro sid s hs
    have hne : sid ≠ st.nextSid := by
      obtain ⟨q, hq, hqe⟩ := List.mem_map.mp (mem_keys_of_lookupSid hs)
      have := h.sids_lt q hq
      omega
    refine ⟨s, ?_, Nat.le_refl _⟩
    show lookupSid (startMediaSetup st leaf).sessions sid = some s
    rw [startSetup_sessions, lookupSid_cons_ne _ _ _ _ hne]
    exact hs
  have hm4 : TotalMono st (startMediaSyncPhase st leaf) := by
    simp only [startMediaSyncPhase]
    split
    · exact hm3.chain (totalMono_renderChunk _ _ _ _)
    · exact hm3
  simp only [startMediaLoadingForLeaf]
  refine TotalMono.chain ?_ (totalMono_update1 _ _ _ (by intro s0; exact Nat.le_refl _))
  exact hm4.keepSessions rfl

theorem totalMono_renderMedia {st : RendererState} (h : WF st) (leaf? : Option LeafData) :
    TotalMono st (renderMedia st leaf?) := by
  cases leaf? with
  | none => exact totalMono_reset h
  | some leaf =>
    simp only [renderMedia]
    split
    · exact totalMono_reset h
    · exact (totalMono_reset h).chain (totalMono_startMedia h.resetView leaf)

theorem totalMono_renderStep (st : RendererState) (pid : Nat) :
    TotalMono st (applyRenderStep st pid) := by
  simp only [applyRenderStep]
  split
  · exact totalMono_refl st
  · split
    · exact totalMono_refl st
    · exact (totalMono_renderChunk _ _ _ _).keepSessions rfl

theorem totalMono_renderSettled (st : RendererState) (pid : Nat) :
    TotalMono st (applyRenderSettled st pid) := by
  simp only [applyRenderSettled]
  split
  · exact totalMono_refl st
  · next j hfind =>
    split
    · exact totalMono_refl st
    · have hc1 : TotalMono st (renderSettledCleanup st pid j.sid j.cid) := by
        simp only [renderSettledCleanup]
        have hA : TotalMono st ({ st with renderJobs := st.renderJobs.filter (fun j0 => j0.pid ≠ pid) } : RendererState) :=
          (totalMono_refl st).keepSessions rfl
        have hB : TotalMono st (if ({ st with renderJobs := st.renderJobs.filter (fun j0 => j0.pid ≠ pid) } : RendererState).currentSid = j.sid then updateSession { st with renderJobs := st.renderJobs.filter (fun j0 => j0.pid ≠ pid) } j.sid (fun s0 => { s0 with loadingPromise := none }) else { st with renderJobs := st.renderJobs.filter (fun j0 => j0.pid ≠ pid) }) := by
          split
          · exact hA.update _ _ (by intro s0; exact Nat.le_refl _)
          · exact hA
        exact hB.abortFinish j.cid
      split
      · exact (hc1.chain (totalMono_handle _ _)).thenFetch _
      · exact hc1.chain (totalMono_handle _ _)

theorem totalMono_openViewer (st : RendererState) (idx : Int) :
    TotalMono st (openMediaViewerAtIndex st idx) := by
  simp only [openMediaViewerAtIndex]
  split
  · exact totalMono_refl st
  · split
    · refine TotalMono.chain ?_ (totalMono_fetchNext _ _)
      refine TotalMono.chain ?_ (totalMono_showLoadingW _ _)
      refine TotalMono.chain ?_ (totalMono_update1 _ _ _ (by intro s0; exact Nat.le_refl _))
      exact totalMono_ensureW _
    · refine TotalMono.chain ?_ (totalMono_showItem _ _)
      refine TotalMono.chain ?_ (totalMono_update1 _ _ _ (by intro s0; exact Nat.le_refl _))
      exact totalMono_ensureW _

theorem totalMono_stepViewer (st : RendererState) (delta : Int) :
    TotalMono st (stepMediaViewer st delta) := by
  simp only [stepMediaViewer]
  split
  · exact totalMono_refl st
  · split
    · exact totalMono_refl st
    · split
      · exact totalMono_refl st
      · split
        · exact totalMono_refl st
        · exact totalMono_openViewer _ _

theorem totalMono_step {st : RendererState} (h : WF st) (e : Event) :
    TotalMono st (applyEvent st e) := by
  cases e with
  | selectLeaf leaf => simp only [applyEvent]; exact totalMono_renderMedia h _
  | deselect => simp only [applyEvent]; exact totalMono_renderMedia h _
  | renderStep pid => simp only [applyEvent]; exact totalMono_renderStep _ _
  | renderSettled pid => simp only [applyEvent]; exact totalMono_renderSettled _ _
  | fetchResolve fid result => simp only [applyEvent]; exact totalMono_resolve _ _ _
  | fetchReject fid b => simp only [applyEvent]; exact totalMono_reject _ _ _
  | openViewerAt index => simp only [applyEvent]; exact totalMono_openViewer _ _
  | stepViewer delta => simp only [applyEvent]; exact totalMono_stepViewer _ _
  | closeViewer => simp only [applyEvent]; exact totalMono_close _ _

/-- C10 (session total never shrinks): from any reachable state, no
event ever lowers a stored session's `totalCount` — the session
survives every step with a total at least as large — and a session
created by `startMediaLoadingForLeaf` starts with `totalCount =
max(initial file count, leaf total hint)`; fetch results only replace
the total by `max(reported, items.length)` when strictly larger. -/
theorem session_total_monotone :
    (∀ (st : RendererState) (e : Event) (sid : Nat) (s : Session),
      Reachable st → getSession st sid = some s →
      ∃ s', getSession (applyEvent st e) sid = some s' ∧ s.totalCount ≤ s'.totalCount) ∧
    (∀ (st : RendererState) (leaf : LeafData) (s : Session),
      getSession (startMediaLoadingForLeaf st leaf) st.nextSid = some s →
      s.totalCount = max (leaf.mediaFiles.getD []).length ((getLeafMediaTotal leaf).getD 0)) := by
  constructor
  · intro st e sid s hreach hs
    exact totalMono_step (reachable_wf hreach) e sid s hs
  · intro st leaf s hs
    obtain ⟨its, lp2, hB⟩ := startMedia_current st leaf
    rw [hB] at hs
    obtain rfl := Option.some.inj hs
    rfl

/-- Witness for C10 at `stFetching`: a rejection keeps session 2's total
at 30, and `leafBravo`'s fresh session starts at `max 0 5`. -/
theorem session_total_monotone_witness :
    (∃ s', getSession (applyEvent stFetching (Event.fetchReject 1 false)) 2 = some s' ∧
      sessionHome.totalCount ≤ s'.totalCount) ∧
    sessionBravo.totalCount =
      max (leafBravo.mediaFiles.getD []).length ((getLeafMediaTotal leafBravo).getD 0) :=
  ⟨session_total_monotone.1 stFetching (Event.fetchReject 1 false) 2 sessionHome
      ⟨true, [Event.selectLeaf leafHome, Event.renderSettled 0], rfl⟩ (by rfl),
   session_total_monotone.2 stFetching leafBravo sessionBravo (by rfl)⟩

theorem clampIndex_nat_of_lt (K total : Nat) (h : K < total) :
    clampIndex (K : Int) total = K := by
  simp only [clampIndex]
  omega

theorem ensure_currentSid (st : RendererState) (r : Nat) :
    (ensureMediaViewerActive st r).currentSid = st.currentSid := rfl

theorem showLoading_currentSid (st : RendererState) (i t : Nat) :
    (showMediaViewerLoadingState st i t).currentSid = st.currentSid := rfl

theorem updateSession_currentSid (st : RendererState) (sid : Nat) (f : Session → Session) :
    (updateSession st sid f).currentSid = st.currentSid := rfl

theorem getSession_viewerCur (st : RendererState) (c : Nat) (v : ViewerState) (sid : Nat) :
    getSession { st with currentSid := c, viewer := v } sid = getSession st sid := rfl

theorem getSession_setFlightPid (st : RendererState) (l : List Fetch) (np : Nat) (sid : Nat) :
    getSession { st with inFlight := l, nextPid := np } sid = getSession st sid := rfl

theorem fetchNext_viewer (st : RendererState) (sid : Nat) :
    (fetchNextMediaChunk st sid).1.viewer = st.viewer := by
  rcases fetchNext_cases st sid with heq | ⟨s, lp, hs, hlp, hapi, hpath, heq⟩
  · rw [heq]
  · rw [heq]
    rfl

theorem fetchNext_keeps_session {st : RendererState} {sid : Nat} {pi : Option Nat}
    {its : List MediaFile}
    (h : ∃ s0, getSession st sid = some s0 ∧ s0.pendingIndex = pi ∧ s0.items = its) :
    ∃ s', getSession (fetchNextMediaChunk st sid).1 sid = some s' ∧
      s'.pendingIndex = pi ∧ s'.items = its := by
  obtain ⟨s0, hs0, hpi, hit⟩ := h
  rcases fetchNext_cases st sid with heq | ⟨s2, lp, hs2, hlp2, hapi2, hpath2, heq⟩
  · rw [heq]
    exact ⟨s0, hs0, hpi, hit⟩
  · rw [heq, getSession_updateSession_self, getSession_setFlightPid, hs0]
    exact ⟨_, rfl, hpi, hit⟩

theorem showItem_displays {st : RendererState} {s : Session} {pk : Nat}
    (hs : getSession st st.currentSid = some s)
    (hreq0 : s.requestId ≠ 0)
    (hlt : pk < s.items.length)
    (hpktot : pk < getMediaSessionTotal s) :
    (showMediaViewerItem st (pk : Int)).viewer.currentFile = s.items[pk]? ∧
    (showMediaViewerItem st (pk : Int)).viewer.index = (pk : Int) ∧
    (showMediaViewerItem st (pk : Int)).viewer.loadingHidden = true ∧
    ∃ s', getSession (showMediaViewerItem st (pk : Int)) st.currentSid = some s' ∧
      s'.pendingIndex = none ∧ s'.items = s.items := by
  have hcs : currentSession st = s := by
    simp only [currentSession, hs, Option.getD_some]
  simp only [showMediaViewerItem, hcs, ensure_currentSid, updateSession_currentSid]
  rw [if_neg hreq0, if_neg (by omega : ¬ getMediaSessionTotal s = 0),
    clampIndex_nat_of_lt pk _ hpktot, if_neg (Nat.not_le.mpr hlt)]
  obtain ⟨file, hfile⟩ : ∃ f, s.items[pk]? = some f := ⟨_, List.getElem?_eq_getElem hlt⟩
  simp only [hfile]
  split
  · refine ⟨?_, ?_, ?_, ?_⟩
    · rw [fetchNext_viewer]
    · rw [fetchNext_viewer]
    · rw [fetchNext_viewer]
    · refine fetchNext_keeps_session ⟨{ s with pendingIndex := none }, ?_, rfl, rfl⟩
      rw [getSession_viewerCur, getSession_updateSession_self, getSession_ensureActive, hs]
      rfl
  · refine ⟨rfl, rfl, rfl, ?_⟩
    refine ⟨{ s with pendingIndex := none }, ?_, rfl, rfl⟩
    rw [getSession_viewerCur, getSession_updateSession_self, getSession_ensureActive, hs]
    rfl

/-- C6 (random access waits correctly): opening the viewer at an index
`K` that lies beyond the loaded items but below the session total shows
the loading placeholder instead of an item (no synchronous display),
records `pendingIndex = K`, and issues at most one additional fetch —
none when the session's `loadingPromise` is already set.  A page append
then delivers the item exactly when it makes `items.length > K`: the
append handler is a no-op while `items.length ≤ K`, and once
`K < items.length` it clears `pendingIndex` and displays item `K`. -/
theorem random_access_waits :
    (∀ (st : RendererState) (K : Nat) (s : Session),
      getSession st st.currentSid = some s →
      s.items.length ≤ K →
      K < getMediaSessionTotal s →
      (openMediaViewerAtIndex st (K : Int)).viewer.currentFile = none ∧
      (openMediaViewerAtIndex st (K : Int)).viewer.isOpen = true ∧
      (openMediaViewerAtIndex st (K : Int)).viewer.loadingHidden = false ∧
      (openMediaViewerAtIndex st (K : Int)).viewer.filenameText = "正在加载…" ∧
      (openMediaViewerAtIndex st (K : Int)).viewer.index = (K : Int) ∧
      (∃ s', getSession (openMediaViewerAtIndex st (K : Int)) st.currentSid = some s' ∧
        s'.pendingIndex = some K ∧ s'.items = s.items) ∧
      ((∃ p, s.loadingPromise = some p) →
        (openMediaViewerAtIndex st (K : Int)).inFlight = st.inFlight) ∧
      ((openMediaViewerAtIndex st (K : Int)).inFlight = st.inFlight ∨
        ∃ f, (openMediaViewerAtIndex st (K : Int)).inFlight = st.inFlight ++ [f] ∧
          f.sid = st.currentSid)) ∧
    (∀ (st : RendererState) (pk : Nat) (s : Session),
      getSession st st.currentSid = some s →
      s.pendingIndex = some pk →
      s.requestId ≠ 0 →
      st.viewer.isOpen = true →
      st.viewer.sessionRequestId = s.requestId →
      pk < getMediaSessionTotal s →
      (s.items.length ≤ pk → handleMediaViewerItemsAppended st st.currentSid = st) ∧
      (pk < s.items.length →
        (handleMediaViewerItemsAppended st st.currentSid).viewer.currentFile = s.items[pk]? ∧
        (handleMediaViewerItemsAppended st st.currentSid).viewer.index = (pk : Int) ∧
        (handleMediaViewerItemsAppended st st.currentSid).viewer.loadingHidden = true ∧
        ∃ s', getSession (handleMediaViewerItemsAppended st st.currentSid) st.currentSid
            = some s' ∧ s'.pendingIndex = none ∧ s'.items = s.items)) := by
  constructor
  · intro st K s hs hlen hK
    have hcs : currentSession st = s := by
      simp only [currentSession, hs, Option.getD_some]
    simp only [openMediaViewerAtIndex, hcs, ensure_currentSid, updateSession_currentSid,
      showLoading_currentSid]
    rw [if_neg (by omega : ¬ getMediaSessionTotal s = 0),
      clampIndex_nat_of_lt K _ hK, if_pos hlen]
    refine ⟨?_, ?_, ?_, ?_, ?_, ?_, ?_, ?_⟩
    · rw [fetchNext_viewer]
      rfl
    · rw [fetchNext_viewer]
      rfl
    · rw [fetchNext_viewer]
      rfl
    · rw [fetchNext_viewer]
      rfl
    · rw [fetchNext_viewer]
      rfl
    · refine fetchNext_keeps_session ⟨{ s with pendingIndex := some K }, ?_, rfl, rfl⟩
      rw [getSession_showLoading, getSession_updateSession_self, getSession_ensureActive, hs]
      rfl
    · intro hex
      obtain ⟨p, hp⟩ := hex
      have hs1 : getSession (showMediaViewerLoadingState (updateSession
          (ensureMediaViewerActive st s.requestId) st.currentSid
          (fun s0 => { s0 with pendingIndex := some K })) K (getMediaSessionTotal s))
          st.currentSid = some { s with pendingIndex := some K } := by
        rw [getSession_showLoading, getSession_updateSession_self, getSession_ensureActive, hs]
        rfl
      rw [fetchNext_of_loading hs1
        (show ({ s with pendingIndex := some K } : Session).loadingPromise = some p from hp)]
      rfl
    · rcases fetchNext_cases (showMediaViewerLoadingState (updateSession
          (ensureMediaViewerActive st s.requestId) st.currentSid
          (fun s0 => { s0 with pendingIndex := some K })) K (getMediaSessionTotal s))
          st.currentSid
        with heq | ⟨s2, lp, hs2, hlp2, hapi2, hpath2, heq⟩
      · left
        rw [heq]
        rfl
      · right
        exact ⟨_, by rw [heq]; rfl, rfl⟩
  · intro st pk s hs hpend hreq0 hopen hvreq hpktot
    have hcs : currentSession st = s := by
      simp only [currentSession, hs, Option.getD_some]
    simp only [handleMediaViewerItemsAppended, hcs, hpend, updateSession_currentSid]
    rw [if_neg (show ¬(st.currentSid ≠ st.currentSid) from fun hh => hh rfl)]
    constructor
    · intro hge
      rw [if_neg (fun hc => absurd hc.1 (Nat.not_lt.mpr hge))]
    · intro hlt
      rw [if_pos ⟨hlt, hopen, hvreq⟩]
      have hs2 : getSession (updateSession st st.currentSid
          (fun s0 => { s0 with pendingIndex := none })) st.currentSid
          = some { s with pendingIndex := none } := by
        rw [getSession_updateSession_self, hs]
        rfl
      have hd := showItem_displays hs2 hreq0 hlt hpktot
      exact hd

/-- Witness for C6: opening index 5 of `stFetching` (0 items loaded, 30
total) shows the placeholder, and the append handler of `stWaiting`
(8 items loaded, pending index 5) delivers item 5. -/
theorem random_access_waits_witness :
    (openMediaViewerAtIndex stFetching ((5 : Nat) : Int)).viewer.currentFile = none ∧
    (handleMediaViewerItemsAppended stWaiting stWaiting.currentSid).viewer.currentFile
      = sessionWaiting.items[5]? :=
  ⟨(random_access_waits.1 stFetching 5 sessionHome (by rfl) (by decide) (by decide)).1,
   ((random_access_waits.2 stWaiting 5 sessionWaiting (by rfl) (by rfl) (by decide) (by rfl)
      (by rfl) (by decide)).2 (by decide)).1⟩

end ImageViewer
